import Mathlib

/-!
Verification of the lspower LSP runtime core against its specification.

The Rust sources are shallowly embedded as executable Lean definitions:

* `Json` models `serde_json::Value` (numbers restricted to integers; object
  members kept as an ordered association list, matching the wire layout).
* `jsonrpc` types (`Id`, `ErrorCode`, `Error`, `Response`, `ClientRequest`,
  `Outgoing`, `Incoming`) follow `src/jsonrpc.rs` and `src/jsonrpc/error.rs`.
* The pending-request registries follow `src/jsonrpc/pending.rs`, with the
  asynchronous handler futures made explicit as tokens and an event-step
  relation standing in for the scheduler's interleavings.
* The service gate follows `src/service.rs`, the client handle `src/client.rs`,
  and the framing codec (including its embedded `nom` streaming parsers)
  `src/codec.rs`.  Byte buffers are modelled as `List Char`, with
  `Content-Length` counted in those units on both sides.
-/

namespace Lspower

/-! ## JSON values (model of `serde_json::Value`) -/

/-- Model of `serde_json::Value`: numbers are restricted to integers and
objects are ordered association lists. -/
inductive Json where
  | null : Json
  | bool (b : Bool) : Json
  | num (n : Int) : Json
  | str (s : String) : Json
  | arr (items : List Json) : Json
  | obj (members : List (String × Json)) : Json

mutual

/-- Boolean equality on `Json` (the derive handler does not support the
nested lists, so it is spelled out). -/
def Json.beq : Json → Json → Bool
  | .null, .null => true
  | .bool a, .bool b => a == b
  | .num a, .num b => a == b
  | .str a, .str b => a == b
  | .arr a, .arr b => Json.beqList a b
  | .obj a, .obj b => Json.beqObj a b
  | _, _ => false

def Json.beqList : List Json → List Json → Bool
  | [], [] => true
  | a :: as, b :: bs => Json.beq a b && Json.beqList as bs
  | _, _ => false

def Json.beqObj : List (String × Json) → List (String × Json) → Bool
  | [], [] => true
  | (k, a) :: as, (l, b) :: bs => k == l && Json.beq a b && Json.beqObj as bs
  | _, _ => false

end

mutual

theorem Json.beq_iff : ∀ a b : Json, Json.beq a b = true ↔ a = b
  | .null, b => by cases b <;> simp [Json.beq]
  | .bool x, b => by cases b <;> simp [Json.beq]
  | .num x, b => by cases b <;> simp [Json.beq]
  | .str x, b => by cases b <;> simp [Json.beq]
  | .arr x, b => by
      cases b <;> simp [Json.beq]
      exact Json.beqList_iff x _
  | .obj x, b => by
      cases b <;> simp [Json.beq]
      exact Json.beqObj_iff x _

theorem Json.beqList_iff : ∀ a b : List Json, Json.beqList a b = true ↔ a = b
  | [], [] => by simp [Json.beqList]
  | [], _ :: _ => by simp [Json.beqList]
  | _ :: _, [] => by simp [Json.beqList]
  | x :: xs, y :: ys => by
      simp [Json.beqList, Json.beq_iff x y, Json.beqList_iff xs ys]

theorem Json.beqObj_iff : ∀ a b : List (String × Json), Json.beqObj a b = true ↔ a = b
  | [], [] => by simp [Json.beqObj]
  | [], _ :: _ => by simp [Json.beqObj]
  | _ :: _, [] => by simp [Json.beqObj]
  | (k, x) :: xs, (l, y) :: ys => by
      simp [Json.beqObj, Json.beq_iff x y, Json.beqObj_iff xs ys]

end

instance : DecidableEq Json := fun a b =>
  decidable_of_iff _ (Json.beq_iff a b)

def Json.isNull : Json → Bool
  | .null => true
  | _ => false

def Json.isArray : Json → Bool
  | .arr _ => true
  | _ => false

def Json.isObject : Json → Bool
  | .obj _ => true
  | _ => false

/-! ## JSON-RPC core types (`src/jsonrpc.rs`, `src/jsonrpc/error.rs`) -/

/-- `jsonrpc::Id`: a request ID is either a number or a string. -/
inductive Id where
  | number (n : Nat) : Id
  | string (s : String) : Id
  deriving DecidableEq

/-- `jsonrpc::ErrorCode` from `src/jsonrpc/error.rs`. -/
inductive ErrorCode where
  | parseError
  | invalidRequest
  | methodNotFound
  | invalidParams
  | internalError
  | serverError (code : Int)
  | requestCancelled
  | contentModified
  deriving DecidableEq

/-- `ErrorCode::code`: the integer error code value. -/
def ErrorCode.code : ErrorCode → Int
  | .parseError => -32700
  | .invalidRequest => -32600
  | .methodNotFound => -32601
  | .invalidParams => -32602
  | .internalError => -32603
  | .requestCancelled => -32800
  | .contentModified => -32801
  | .serverError code => code

/-- `ErrorCode::description`. -/
def ErrorCode.description : ErrorCode → String
  | .parseError => "Parse error"
  | .invalidRequest => "Invalid request"
  | .methodNotFound => "Method not found"
  | .invalidParams => "Invalid params"
  | .internalError => "Internal error"
  | .requestCancelled => "Canceled"
  | .contentModified => "Content modified"
  | .serverError _ => "Server error"

/-- `impl From<i64> for ErrorCode`. -/
def ErrorCode.fromInt : Int → ErrorCode
  | -32700 => .parseError
  | -32600 => .invalidRequest
  | -32601 => .methodNotFound
  | -32602 => .invalidParams
  | -32603 => .internalError
  | -32800 => .requestCancelled
  | -32801 => .contentModified
  | code => .serverError code

/-- `jsonrpc::Error`: a JSON-RPC error object. -/
structure Error where
  code : ErrorCode
  message : String
  data : Option Json
  deriving DecidableEq

def Error.new (code : ErrorCode) : Error :=
  { code := code, message := code.description, data := none }

def Error.parse_error : Error := Error.new .parseError

def Error.invalid_request : Error := Error.new .invalidRequest

def Error.method_not_found : Error := Error.new .methodNotFound

def Error.internal_error : Error := Error.new .internalError

def Error.request_cancelled : Error := Error.new .requestCancelled

def Error.content_modified : Error := Error.new .contentModified

/-- `jsonrpc::not_initialized_error`. -/
def not_initialized_error : Error :=
  { code := .serverError (-32002), message := "Server not initialized", data := none }

/-- `jsonrpc::Response` (the constant `jsonrpc: "2.0"` field is implicit).
The two constructors are the two variants of `ResponseKind`. -/
inductive Response where
  | ok (result : Json) (id : Id) : Response
  | error (id : Option Id) (error : Error) : Response
  deriving DecidableEq

/-- `Response::error` with the argument order of the Rust constructor. -/
def Response.mkError (id : Option Id) (e : Error) : Response := Response.error id e

/-- `Response::from_parts`. -/
def Response.from_parts (id : Id) (body : Except Error Json) : Response :=
  match body with
  | .ok result => Response.ok result id
  | .error e => Response.error (some id) e

/-- `Response::into_parts`. -/
def Response.into_parts : Response → Option Id × Except Error Json
  | .ok result id => (some id, .ok result)
  | .error id e => (id, .error e)

/-- `Response::id`. -/
def Response.id : Response → Option Id
  | .ok _ id => some id
  | .error id _ => id

/-- `jsonrpc::ClientRequest` (with its flattened `ClientMethod` union). -/
inductive ClientRequest where
  | request (method : String) (params : Json) (id : Id) : ClientRequest
  | notif (method : String) (params : Json) : ClientRequest
  deriving DecidableEq

/-- `jsonrpc::Outgoing`. -/
inductive Outgoing where
  | response (r : Response) : Outgoing
  | request (r : ClientRequest) : Outgoing
  deriving DecidableEq

/-! ## Pending server requests (`src/jsonrpc/pending.rs`, `ServerRequests`) -/

/-- State of a `ServerRequests` registry together with the handler futures
spawned by `execute`.  The `DashMap<Id, future::AbortHandle>` is `reg`; an
abort handle is identified by the token of the handler future it controls.
`live` records each live handler future as `(token, request id, aborted)`;
the aborted flag is what the abort handle flips.  `nextTok` generates fresh
tokens for newly spawned futures. -/
structure ServerRequests where
  nextTok : Nat
  reg : List (Id × Nat)
  live : List (Nat × Id × Bool)
  deriving DecidableEq

/-- Lookup in the `DashMap<Id, AbortHandle>` (an entry is `(id, token)`). -/
def regLookup : List (Id × Nat) → Id → Option Nat
  | [], _ => none
  | (i, t) :: r, id => if i = id then some t else regLookup r id

/-- `DashMap::remove` keyed by request ID. -/
def regRemove (r : List (Id × Nat)) (id : Id) : List (Id × Nat) :=
  r.filter (fun p => p.1 != id)

/-- Find the live handler future controlled by a token. -/
def liveLookup : List (Nat × Id × Bool) → Nat → Option (Id × Bool)
  | [], _ => none
  | (t, i, b) :: r, tok => if t = tok then some (i, b) else liveLookup r tok

/-- Drop a handler future once it has completed. -/
def liveRemove (l : List (Nat × Id × Bool)) (tok : Nat) : List (Nat × Id × Bool) :=
  l.filter (fun e => e.1 != tok)

/-- `AbortHandle::abort`: flip the aborted flag of the future the handle
controls. -/
def liveAbort (l : List (Nat × Id × Bool)) (tok : Nat) : List (Nat × Id × Bool) :=
  l.map (fun e => if e.1 = tok then (e.1, e.2.1, true) else e)

/-- The future an `execute` call hands back: either a freshly spawned handler
future or one that immediately yields a canned response. -/
inductive ExecFuture where
  | started (tok : Nat)
  | immediate (r : Response)
  deriving DecidableEq

/-- `ServerRequests::execute`.  If the ID is vacant, wrap the handler in an
abortable future, store the abort handle under the ID and spawn the handler;
otherwise return a future that immediately yields an "invalid request" error
response and leave the registry untouched. -/
def ServerRequests.execute (s : ServerRequests) (id : Id) : ServerRequests × ExecFuture :=
  match regLookup s.reg id with
  | none =>
      ({ nextTok := s.nextTok + 1,
         reg := (id, s.nextTok) :: s.reg,
         live := (s.nextTok, id, false) :: s.live },
       .started s.nextTok)
  | some _ => (s, .immediate (Response.error (some id) Error.invalid_request))

/-- The wrapped handler future completing: `handler_fut.await` resolves (to
the handler's own result, or to `Aborted` if the abort handle fired), the
entry under the ID is removed, and the `Response` is produced.  `result` is
the handler's own `Result<T>`. -/
def ServerRequests.finish (s : ServerRequests) (tok : Nat) (result : Except Error Json) :
    ServerRequests × Option Response :=
  match liveLookup s.live tok with
  | none => (s, none)
  | some (id, aborted) =>
      let s1 : ServerRequests :=
        { s with live := liveRemove s.live tok, reg := regRemove s.reg id }
      if aborted then (s1, some (Response.error (some id) Error.request_cancelled))
      else (s1, some (Response.from_parts id result))

/-- `ServerRequests::cancel`: remove the entry if present and trigger its
abort handle; no-op if absent. -/
def ServerRequests.cancel (s : ServerRequests) (id : Id) : ServerRequests :=
  match regLookup s.reg id with
  | some tok => { s with reg := regRemove s.reg id, live := liveAbort s.live tok }
  | none => s

/-- `ServerRequests::cancel_all`: drain all entries, triggering each abort
handle. -/
def ServerRequests.cancel_all (s : ServerRequests) : ServerRequests :=
  { s with
    reg := [],
    live := s.live.map (fun e =>
      if e.1 ∈ s.reg.map Prod.snd then (e.1, e.2.1, true) else e) }

/-- One scheduler-visible operation on the pending-server registry. -/
inductive PendingEv where
  | exec (id : Id)
  | cancel (id : Id)
  | cancelAll
  | finish (tok : Nat) (result : Except Error Json)

/-- Apply one operation (discarding the returned futures/responses). -/
def pendingStep (s : ServerRequests) : PendingEv → ServerRequests
  | .exec id => (s.execute id).1
  | .cancel id => s.cancel id
  | .cancelAll => s.cancel_all
  | .finish tok result => (s.finish tok result).1

/-- `ServerRequests::new()`. -/
def pendingInit : ServerRequests := ⟨0, [], []⟩

/-- Run a whole interleaving of registry operations. -/
def pendingRun (evs : List PendingEv) : ServerRequests :=
  evs.foldl pendingStep pendingInit

/-- The claimed membership invariant: an entry exists in the map iff a
(not-yet-aborted) handler future for that ID is running. -/
def ServerInv (s : ServerRequests) : Prop :=
  ∀ id, (regLookup s.reg id).isSome = true ↔ ∃ tok, (tok, id, false) ∈ s.live

theorem regLookup_mem {r : List (Id × Nat)} {id : Id} {t : Nat}
    (h : regLookup r id = some t) : (id, t) ∈ r := by
  induction r with
  | nil => simp [regLookup] at h
  | cons p r ih =>
      obtain ⟨i, u⟩ := p
      by_cases hi : i = id
      · subst hi
        simp [regLookup] at h
        simp [h]
      · simp [regLookup, hi] at h
        exact List.mem_cons_of_mem _ (ih h)

theorem regLookup_eq_none {r : List (Id × Nat)} {id : Id} :
    regLookup r id = none ↔ ∀ t, (id, t) ∉ r := by
  induction r with
  | nil => simp [regLookup]
  | cons p r ih =>
      obtain ⟨i, u⟩ := p
      by_cases hi : i = id
      · subst hi
        constructor
        · intro h
          simp [regLookup] at h
        · intro h
          exact absurd (List.mem_cons_self _ _) (h u)
      · simp only [regLookup, if_neg hi, ih, List.mem_cons]
        constructor
        · intro h t hm
          rcases hm with hm | hm
          · exact hi (congrArg Prod.fst hm).symm
          · exact h t hm
        · intro h t hm
          exact h t (Or.inr hm)

theorem regLookup_isSome {r : List (Id × Nat)} {id : Id} :
    (regLookup r id).isSome = true ↔ ∃ t, (id, t) ∈ r := by
  constructor
  · intro h
    rcases ho : regLookup r id with _ | t
    · rw [ho] at h
      simp at h
    · exact ⟨t, regLookup_mem ho⟩
  · rintro ⟨t, ht⟩
    rcases ho : regLookup r id with _ | u
    · rw [regLookup_eq_none] at ho
      exact absurd ht (ho t)
    · rfl

theorem mem_regRemove {r : List (Id × Nat)} {id : Id} {p : Id × Nat} :
    p ∈ regRemove r id ↔ p ∈ r ∧ p.1 ≠ id := by
  simp [regRemove, List.mem_filter]

theorem regLookup_regRemove_self (r : List (Id × Nat)) (id : Id) :
    regLookup (regRemove r id) id = none := by
  rw [regLookup_eq_none]
  intro t h
  exact (mem_regRemove.mp h).2 rfl

theorem regLookup_regRemove_ne {r : List (Id × Nat)} {id id1 : Id} (h : id1 ≠ id) :
    regLookup (regRemove r id) id1 = regLookup r id1 := by
  induction r with
  | nil => rfl
  | cons p r ih =>
      obtain ⟨i, u⟩ := p
      by_cases hi : i = id
      · subst hi
        simpa [regRemove, List.filter_cons, regLookup, Ne.symm h] using ih
      · by_cases hii : i = id1
        · subst hii
          simp [regRemove, List.filter_cons, bne_iff_ne, hi, regLookup]
        · simpa [regRemove, List.filter_cons, bne_iff_ne, hi, regLookup, hii] using ih

theorem liveLookup_mem {l : List (Nat × Id × Bool)} {tok : Nat} {i : Id} {b : Bool}
    (h : liveLookup l tok = some (i, b)) : (tok, i, b) ∈ l := by
  induction l with
  | nil => simp [liveLookup] at h
  | cons e l ih =>
      obtain ⟨t, j, c⟩ := e
      by_cases ht : t = tok
      · subst ht
        simp [liveLookup] at h
        simp [h]
      · simp [liveLookup, ht] at h
        exact List.mem_cons_of_mem _ (ih h)

theorem mem_liveRemove {l : List (Nat × Id × Bool)} {tok : Nat} {e : Nat × Id × Bool} :
    e ∈ liveRemove l tok ↔ e ∈ l ∧ e.1 ≠ tok := by
  simp [liveRemove, List.mem_filter]

theorem mem_abortMap {l : List (Nat × Id × Bool)} {p : Nat → Prop} [DecidablePred p]
    {t : Nat} {i : Id} {b : Bool} :
    (t, i, b) ∈ l.map (fun e => if p e.1 then (e.1, e.2.1, true) else e) ↔
      (¬ p t ∧ (t, i, b) ∈ l) ∨ (p t ∧ b = true ∧ ∃ c, (t, i, c) ∈ l) := by
  constructor
  · intro h
    rw [List.mem_map] at h
    obtain ⟨⟨t1, i1, c1⟩, he, heq⟩ := h
    by_cases hp : p t1
    · rw [if_pos hp] at heq
      injection heq with h1 h2
      injection h2 with h2 h3
      subst h1
      subst h2
      subst h3
      exact Or.inr ⟨hp, rfl, c1, he⟩
    · rw [if_neg hp] at heq
      injection heq with h1 h2
      injection h2 with h2 h3
      subst h1
      subst h2
      subst h3
      exact Or.inl ⟨hp, he⟩
  · rintro (⟨hp, he⟩ | ⟨hp, rfl, c, hc⟩)
    · rw [List.mem_map]
      exact ⟨(t, i, b), he, by simp [hp]⟩
    · rw [List.mem_map]
      exact ⟨(t, i, c), hc, by simp [hp]⟩

theorem abortMap_toks (l : List (Nat × Id × Bool)) (p : Nat → Prop) [DecidablePred p] :
    (l.map (fun e => if p e.1 then (e.1, e.2.1, true) else e)).map (fun e => e.1) =
      l.map (fun e => e.1) := by
  induction l with
  | nil => rfl
  | cons e l ih =>
      obtain ⟨t, i, b⟩ := e
      by_cases hp : p t <;> simp [hp, ih]

theorem liveLookup_liveAbort_self (l : List (Nat × Id × Bool)) (tok : Nat) :
    liveLookup (liveAbort l tok) tok = (liveLookup l tok).map (fun x => (x.1, true)) := by
  induction l with
  | nil => rfl
  | cons e l ih =>
      obtain ⟨t, i, b⟩ := e
      by_cases ht : t = tok
      · subst ht
        show liveLookup ((if t = t then (t, i, true) else (t, i, b)) :: liveAbort l t) t = _
        rw [if_pos rfl]
        simp [liveLookup]
      · show liveLookup ((if t = tok then (t, i, true) else (t, i, b)) :: liveAbort l tok) tok = _
        rw [if_neg ht]
        show (if t = tok then some (i, b) else liveLookup (liveAbort l tok) tok) = _
        rw [if_neg ht, ih]
        show _ = Option.map _ (if t = tok then some (i, b) else liveLookup l tok)
        rw [if_neg ht]

/-- Distinct tokens identify live futures uniquely. -/
theorem live_tok_unique {live : List (Nat × Id × Bool)}
    (hn : (live.map (fun e => e.1)).Nodup) {t : Nat} {i1 i2 : Id} {b1 b2 : Bool}
    (h1 : (t, i1, b1) ∈ live) (h2 : (t, i2, b2) ∈ live) : i1 = i2 ∧ b1 = b2 := by
  have := List.inj_on_of_nodup_map hn h1 h2 rfl
  injection this with ha hb
  injection hb with hb hc
  exact ⟨hb, hc⟩

/-- The strengthened registry invariant carried through the trace induction. -/
structure GoodReg (s : ServerRequests) : Prop where
  regKeysNodup : (s.reg.map Prod.fst).Nodup
  liveToksNodup : (s.live.map (fun e => e.1)).Nodup
  liveToksLt : ∀ e ∈ s.live, e.1 < s.nextTok
  regLive : ∀ id tok, (id, tok) ∈ s.reg → (tok, id, false) ∈ s.live
  liveIdUnique : ∀ id t1 b1 t2 b2, (t1, id, b1) ∈ s.live → (t2, id, b2) ∈ s.live → t1 = t2
  inv : ServerInv s

theorem mem_liveAbort {l : List (Nat × Id × Bool)} {tok t : Nat} {i : Id} {b : Bool} :
    (t, i, b) ∈ liveAbort l tok ↔
      (¬ t = tok ∧ (t, i, b) ∈ l) ∨ (t = tok ∧ b = true ∧ ∃ c, (t, i, c) ∈ l) :=
  mem_abortMap (p := fun x => x = tok)

theorem mem_abortMap_src {l : List (Nat × Id × Bool)} {p : Nat → Prop} [DecidablePred p]
    {t : Nat} {i : Id} {b : Bool}
    (h : (t, i, b) ∈ l.map (fun e => if p e.1 then (e.1, e.2.1, true) else e)) :
    ∃ c, (t, i, c) ∈ l := by
  rcases mem_abortMap.mp h with ⟨_, hm⟩ | ⟨_, _, c, hc⟩
  · exact ⟨b, hm⟩
  · exact ⟨c, hc⟩

theorem liveAbort_toks (l : List (Nat × Id × Bool)) (tok : Nat) :
    (liveAbort l tok).map (fun e => e.1) = l.map (fun e => e.1) :=
  abortMap_toks l (fun x => x = tok)

theorem abortMap_fst_eq {l : List (Nat × Id × Bool)} {p : Nat → Prop} [DecidablePred p]
    {e : Nat × Id × Bool} (h : e ∈ l.map (fun x => if p x.1 then (x.1, x.2.1, true) else x)) :
    ∃ e0 ∈ l, e.1 = e0.1 := by
  rw [List.mem_map] at h
  obtain ⟨e0, h0, he⟩ := h
  refine ⟨e0, h0, ?_⟩
  rw [← he]
  by_cases hp : p e0.1 <;> simp [hp]

theorem good_exec (s : ServerRequests) (id : Id) (hg : GoodReg s)
    (ha : ∀ e ∈ s.live, e.2.1 ≠ id) : GoodReg (s.execute id).1 := by
  rcases ho : regLookup s.reg id with _ | tok
  case some => simpa only [ServerRequests.execute, ho] using hg
  case none =>
  have hid : ∀ t, (id, t) ∉ s.reg := regLookup_eq_none.mp ho
  simp only [ServerRequests.execute, ho]
  refine ⟨?_, ?_, ?_, ?_, ?_, ?_⟩
  · simp only [List.map_cons, List.nodup_cons]
    refine ⟨?_, hg.regKeysNodup⟩
    intro hmem
    rw [List.mem_map] at hmem
    obtain ⟨⟨i, t⟩, hm, he⟩ := hmem
    exact hid t (he ▸ hm)
  · simp only [List.map_cons, List.nodup_cons]
    refine ⟨?_, hg.liveToksNodup⟩
    intro hmem
    rw [List.mem_map] at hmem
    obtain ⟨e, hm, he⟩ := hmem
    have := hg.liveToksLt e hm
    omega
  · intro e hm
    rcases List.mem_cons.mp hm with h | h
    · subst h
      simp
    · have := hg.liveToksLt e h
      show e.1 < s.nextTok + 1
      omega
  · intro i t hm
    rcases List.mem_cons.mp hm with h | h
    · injection h with h1 h2
      subst h1
      subst h2
      exact List.mem_cons_self _ _
    · exact List.mem_cons_of_mem _ (hg.regLive _ _ h)
  · intro i t1 b1 t2 b2 h1 h2
    rcases List.mem_cons.mp h1 with h1 | h1 <;> rcases List.mem_cons.mp h2 with h2 | h2
    · injection h1 with h1a _
      injection h2 with h2a _
      omega
    · injection h1 with _ h1b
      injection h1b with h1b _
      exact absurd h1b (ha _ h2)
    · injection h2 with _ h2b
      injection h2b with h2b _
      exact absurd h2b (ha _ h1)
    · exact hg.liveIdUnique i t1 b1 t2 b2 h1 h2
  · intro i
    by_cases hii : i = id
    · subst hii
      constructor
      · intro _
        exact ⟨s.nextTok, List.mem_cons_self _ _⟩
      · intro _
        simp [regLookup]
    · rw [show regLookup ((id, s.nextTok) :: s.reg) i = regLookup s.reg i by
        simp [regLookup, Ne.symm hii]]
      rw [hg.inv i]
      constructor
      · rintro ⟨t, ht⟩
        exact ⟨t, List.mem_cons_of_mem _ ht⟩
      · rintro ⟨t, ht⟩
        rcases List.mem_cons.mp ht with h | h
        · injection h with _ hb
          injection hb with hb _
          exact absurd hb hii
        · exact ⟨t, h⟩

theorem good_cancel (s : ServerRequests) (id : Id) (hg : GoodReg s) :
    GoodReg (s.cancel id) := by
  rcases ho : regLookup s.reg id with _ | tok
  case none => simpa only [ServerRequests.cancel, ho] using hg
  case some =>
  have hmemreg : (id, tok) ∈ s.reg := regLookup_mem ho
  have hlive : (tok, id, false) ∈ s.live := hg.regLive _ _ hmemreg
  simp only [ServerRequests.cancel, ho]
  refine ⟨?_, ?_, ?_, ?_, ?_, ?_⟩
  · exact List.Nodup.sublist (List.Sublist.map _ (List.filter_sublist _)) hg.regKeysNodup
  · show ((liveAbort s.live tok).map (fun e => e.1)).Nodup
    rw [liveAbort_toks]
    exact hg.liveToksNodup
  · intro e hm
    obtain ⟨e0, h0, he⟩ := abortMap_fst_eq (p := fun x => x = tok) hm
    have := hg.liveToksLt e0 h0
    show e.1 < s.nextTok
    omega
  · intro i t hm
    rw [mem_regRemove] at hm
    obtain ⟨hm, hne⟩ := hm
    have hl : (t, i, false) ∈ s.live := hg.regLive _ _ hm
    have htne : ¬ t = tok := by
      intro h
      subst h
      exact hne (live_tok_unique hg.liveToksNodup hl hlive).1
    exact mem_liveAbort.mpr (Or.inl ⟨htne, hl⟩)
  · intro i t1 b1 t2 b2 h1 h2
    obtain ⟨c1, hc1⟩ := mem_abortMap_src (p := fun x => x = tok) h1
    obtain ⟨c2, hc2⟩ := mem_abortMap_src (p := fun x => x = tok) h2
    exact hg.liveIdUnique i t1 c1 t2 c2 hc1 hc2
  · intro i
    by_cases hii : i = id
    · subst hii
      rw [regLookup_regRemove_self]
      simp only [Option.isSome_none, Bool.false_eq_true, false_iff]
      rintro ⟨t, ht⟩
      rcases mem_liveAbort.mp ht with ⟨htne, hl⟩ | ⟨_, hb, _⟩
      · exact htne (hg.liveIdUnique i t false tok false hl hlive)
      · exact Bool.false_ne_true hb
    · rw [regLookup_regRemove_ne hii, hg.inv i]
      constructor
      · rintro ⟨t, ht⟩
        refine ⟨t, mem_liveAbort.mpr (Or.inl ⟨?_, ht⟩)⟩
        intro h
        subst h
        exact hii (live_tok_unique hg.liveToksNodup ht hlive).1
      · rintro ⟨t, ht⟩
        rcases mem_liveAbort.mp ht with ⟨_, hl⟩ | ⟨_, hb, _⟩
        · exact ⟨t, hl⟩
        · exact absurd hb Bool.false_ne_true

theorem good_cancel_all (s : ServerRequests) (hg : GoodReg s) :
    GoodReg s.cancel_all := by
  refine ⟨?_, ?_, ?_, ?_, ?_, ?_⟩
  · simp [ServerRequests.cancel_all]
  · show ((s.live.map fun e =>
      if e.1 ∈ s.reg.map Prod.snd then (e.1, e.2.1, true) else e).map (fun e => e.1)).Nodup
    rw [abortMap_toks]
    exact hg.liveToksNodup
  · intro e hm
    obtain ⟨e0, h0, he⟩ := abortMap_fst_eq (p := fun x => x ∈ s.reg.map Prod.snd) hm
    have := hg.liveToksLt e0 h0
    show e.1 < s.nextTok
    omega
  · intro i t hm
    simp [ServerRequests.cancel_all] at hm
  · intro i t1 b1 t2 b2 h1 h2
    obtain ⟨c1, hc1⟩ := mem_abortMap_src (p := fun x => x ∈ s.reg.map Prod.snd) h1
    obtain ⟨c2, hc2⟩ := mem_abortMap_src (p := fun x => x ∈ s.reg.map Prod.snd) h2
    exact hg.liveIdUnique i t1 c1 t2 c2 hc1 hc2
  · intro i
    show (regLookup [] i).isSome = true ↔ _
    simp only [regLookup, Option.isSome_none, Bool.false_eq_true, false_iff]
    rintro ⟨t, ht⟩
    rcases mem_abortMap.mp ht with ⟨hnt, hl⟩ | ⟨_, hb, _⟩
    · have hsome : (regLookup s.reg i).isSome = true := (hg.inv i).mpr ⟨t, hl⟩
      obtain ⟨u, hu⟩ := regLookup_isSome.mp hsome
      have hul : (u, i, false) ∈ s.live := hg.regLive _ _ hu
      have : u = t := hg.liveIdUnique i u false t false hul hl
      subst this
      exact hnt (List.mem_map.mpr ⟨(i, u), hu, rfl⟩)
    · exact absurd hb Bool.false_ne_true

theorem good_finish (s : ServerRequests) (tok : Nat) (res : Except Error Json)
    (hg : GoodReg s) : GoodReg (s.finish tok res).1 := by
  rcases ho : liveLookup s.live tok with _ | ⟨i0, b0⟩
  · simpa only [ServerRequests.finish, ho] using hg
  · have hmem : (tok, i0, b0) ∈ s.live := liveLookup_mem ho
    have hstate : (s.finish tok res).1 =
        { s with live := liveRemove s.live tok, reg := regRemove s.reg i0 } := by
      simp only [ServerRequests.finish, ho]
      cases b0 <;> rfl
    rw [hstate]
    refine ⟨?_, ?_, ?_, ?_, ?_, ?_⟩
    · exact List.Nodup.sublist (List.Sublist.map _ (List.filter_sublist _)) hg.regKeysNodup
    · exact List.Nodup.sublist (List.Sublist.map _ (List.filter_sublist _)) hg.liveToksNodup
    · intro e hm
      rw [mem_liveRemove] at hm
      exact hg.liveToksLt e hm.1
    · intro i t hm
      rw [mem_regRemove] at hm
      obtain ⟨hm, hne⟩ := hm
      have hl : (t, i, false) ∈ s.live := hg.regLive _ _ hm
      refine mem_liveRemove.mpr ⟨hl, ?_⟩
      intro h
      subst h
      exact hne (live_tok_unique hg.liveToksNodup hl hmem).1
    · intro i t1 b1 t2 b2 h1 h2
      rw [mem_liveRemove] at h1 h2
      exact hg.liveIdUnique i t1 b1 t2 b2 h1.1 h2.1
    · intro i
      by_cases hii : i = i0
      · subst hii
        rw [regLookup_regRemove_self]
        simp only [Option.isSome_none, Bool.false_eq_true, false_iff]
        rintro ⟨t, ht⟩
        rw [mem_liveRemove] at ht
        exact ht.2 (hg.liveIdUnique i t false tok b0 ht.1 hmem)
      · rw [regLookup_regRemove_ne hii, hg.inv i]
        constructor
        · rintro ⟨t, ht⟩
          refine ⟨t, mem_liveRemove.mpr ⟨ht, ?_⟩⟩
          intro h
          subst h
          exact hii (live_tok_unique hg.liveToksNodup ht hmem).1
        · rintro ⟨t, ht⟩
          rw [mem_liveRemove] at ht
          exact ⟨t, ht.1⟩

/-- Interleaving restriction: `execute` is only invoked for an ID that has no
live (even aborted-but-unfinished) handler future. -/
def AdmissibleEv (s : ServerRequests) : PendingEv → Prop
  | .exec id => ∀ e ∈ s.live, e.2.1 ≠ id
  | _ => True

def AdmissibleFrom : ServerRequests → List PendingEv → Prop
  | _, [] => True
  | s, e :: es => AdmissibleEv s e ∧ AdmissibleFrom (pendingStep s e) es

instance (s : ServerRequests) (e : PendingEv) : Decidable (AdmissibleEv s e) := by
  cases e <;> simp only [AdmissibleEv] <;> infer_instance

instance instDecAdmissibleFrom :
    ∀ (s : ServerRequests) (evs : List PendingEv), Decidable (AdmissibleFrom s evs)
  | _, [] => isTrue trivial
  | s, e :: es =>
      have : Decidable (AdmissibleFrom (pendingStep s e) es) :=
        instDecAdmissibleFrom (pendingStep s e) es
      instDecidableAnd

theorem good_step (s : ServerRequests) (e : PendingEv) (hg : GoodReg s)
    (ha : AdmissibleEv s e) : GoodReg (pendingStep s e) := by
  cases e
  case exec id => exact good_exec s id hg ha
  case cancel id => exact good_cancel s id hg
  case cancelAll => exact good_cancel_all s hg
  case finish tok res => exact good_finish s tok res hg

theorem good_init : GoodReg pendingInit := by
  refine ⟨?_, ?_, ?_, ?_, ?_, ?_⟩ <;> simp [pendingInit, ServerInv, regLookup]

theorem good_foldl : ∀ (evs : List PendingEv) (s : ServerRequests),
    GoodReg s → AdmissibleFrom s evs → GoodReg (evs.foldl pendingStep s)
  | [], _, hg, _ => hg
  | e :: es, s, hg, ha => good_foldl es _ (good_step s e hg ha.1) ha.2

/-- Claim C10: for every 64-bit signed integer `n`, `ErrorCode::from(n).code() == n`;
the seven named variants map back to their defining codes, and every other
integer survives unchanged through the `ServerError` variant. -/
theorem errorCode_code_roundtrip (n : Int)
    (hlo : -(2 ^ 63) ≤ n) (hhi : n < 2 ^ 63) :
    (ErrorCode.fromInt n).code = n ∧
      (ErrorCode.fromInt (-32700) = .parseError ∧
       ErrorCode.fromInt (-32600) = .invalidRequest ∧
       ErrorCode.fromInt (-32601) = .methodNotFound ∧
       ErrorCode.fromInt (-32602) = .invalidParams ∧
       ErrorCode.fromInt (-32603) = .internalError ∧
       ErrorCode.fromInt (-32800) = .requestCancelled ∧
       ErrorCode.fromInt (-32801) = .contentModified) ∧
      (n ≠ -32700 → n ≠ -32600 → n ≠ -32601 → n ≠ -32602 → n ≠ -32603 →
       n ≠ -32800 → n ≠ -32801 → ErrorCode.fromInt n = .serverError n) := by
  refine ⟨?_, ⟨by decide, by decide, by decide, by decide, by decide, by decide, by decide⟩, ?_⟩
  · unfold ErrorCode.fromInt
    split <;> simp [ErrorCode.code]
  · intro h1 h2 h3 h4 h5 h6 h7
    unfold ErrorCode.fromInt
    split <;> simp_all

theorem errorCode_code_roundtrip_witness :
    -(2 ^ 63) ≤ (42 : Int) ∧ (42 : Int) < 2 ^ 63 ∧ (ErrorCode.fromInt 42).code = 42 :=
  ⟨by decide, by decide, (errorCode_code_roundtrip 42 (by decide) (by decide)).1⟩

/-- Claim C4: a second `ServerRequests::execute` with an ID that is already
present in the registry returns a future that immediately resolves to
`Response::error(id, invalid_request)`, without invoking or disturbing the
already-running handler (the whole registry state is unchanged). -/
theorem execute_duplicate_id (s : ServerRequests) (id : Id)
    (h : (regLookup s.reg id).isSome = true) :
    s.execute id = (s, .immediate (Response.error (some id) Error.invalid_request)) := by
  rcases ho : regLookup s.reg id with _ | tok
  · rw [ho] at h
    simp at h
  · simp [ServerRequests.execute, ho]

theorem execute_duplicate_id_witness :
    (regLookup [(Id.number 1, 0)] (Id.number 1)).isSome = true ∧
      ServerRequests.execute ⟨1, [(Id.number 1, 0)], [(0, Id.number 1, false)]⟩ (Id.number 1) =
        (⟨1, [(Id.number 1, 0)], [(0, Id.number 1, false)]⟩,
         .immediate (Response.error (some (Id.number 1)) Error.invalid_request)) :=
  ⟨by decide,
   execute_duplicate_id ⟨1, [(Id.number 1, 0)], [(0, Id.number 1, false)]⟩ (Id.number 1)
     (by decide)⟩

/-- Claim C5: if `cancel(id)` fires while the handler registered under `id`
is still running, the future returned by `execute` resolves to
`Response::error(Some(id), request_cancelled)` — the handler's own result is
discarded — and the registry entry is gone; `cancel(id)` with no entry for
`id` is a no-op. -/
theorem cancel_substitutes_cancelled (s : ServerRequests) (id : Id) (tok : Nat)
    (res : Except Error Json)
    (hreg : regLookup s.reg id = some tok)
    (hlive : liveLookup s.live tok = some (id, false)) :
    ((s.cancel id).finish tok res).2 =
        some (Response.error (some id) Error.request_cancelled) ∧
      regLookup (s.cancel id).reg id = none ∧
      (∀ s1 : ServerRequests, regLookup s1.reg id = none → s1.cancel id = s1) := by
  refine ⟨?_, ?_, ?_⟩
  · simp only [ServerRequests.cancel, hreg]
    have habort : liveLookup (liveAbort s.live tok) tok = some (id, true) := by
      rw [liveLookup_liveAbort_self, hlive]
      rfl
    simp [ServerRequests.finish, habort]
  · simp only [ServerRequests.cancel, hreg]
    exact regLookup_regRemove_self _ _
  · intro s1 h
    simp [ServerRequests.cancel, h]

theorem cancel_substitutes_cancelled_witness :
    regLookup [(Id.number 7, 0)] (Id.number 7) = some 0 ∧
      liveLookup [(0, Id.number 7, false)] 0 = some (Id.number 7, false) ∧
      (((⟨1, [(Id.number 7, 0)], [(0, Id.number 7, false)]⟩ : ServerRequests).cancel
            (Id.number 7)).finish 0 (.ok .null)).2 =
        some (Response.error (some (Id.number 7)) Error.request_cancelled) :=
  ⟨by decide, by decide,
   (cancel_substitutes_cancelled ⟨1, [(Id.number 7, 0)], [(0, Id.number 7, false)]⟩
      (Id.number 7) 0 (.ok .null) (by decide) (by decide)).1⟩

/-- Claim C6 fails as stated: after `execute 1`, `cancel 1`, `execute 1`, the
first (cancelled but still live) handler's completion removes the second
handler's registry entry while the second handler is still running, so the
membership invariant is violated on this interleaving. -/
theorem serverRequests_invariant_counterexample :
    ¬ ServerInv (pendingRun
      [.exec (Id.number 1), .cancel (Id.number 1), .exec (Id.number 1),
       .finish 0 (Except.ok Json.null)]) := by
  intro h
  have h1 := (h (Id.number 1)).mpr ⟨1, by decide⟩
  revert h1
  decide

/-- Claim C6 (amended): the membership invariant — an entry exists in the
`ServerRequests` map iff a not-yet-aborted handler future for that ID is
running — holds across every interleaving of `execute`, `cancel`,
`cancel_all` and handler completion in which `execute` is only invoked for an
ID whose previous handler future (if any) has already finished. -/
theorem serverRequests_invariant (evs : List PendingEv)
    (h : AdmissibleFrom pendingInit evs) : ServerInv (pendingRun evs) :=
  (good_foldl evs pendingInit good_init h).inv

theorem serverRequests_invariant_witness :
    AdmissibleFrom pendingInit
        [.exec (Id.number 1), .cancel (Id.number 1), .finish 0 (Except.ok Json.null),
         .exec (Id.number 1)] ∧
      (regLookup (pendingRun
        [.exec (Id.number 1), .cancel (Id.number 1), .finish 0 (Except.ok Json.null),
         .exec (Id.number 1)]).reg (Id.number 1)).isSome = true :=
  ⟨by decide,
   (serverRequests_invariant
      [.exec (Id.number 1), .cancel (Id.number 1), .finish 0 (Except.ok Json.null),
       .exec (Id.number 1)] (by decide) (Id.number 1)).mpr ⟨1, by decide⟩⟩

/-! ## Pending client requests (`src/jsonrpc/pending.rs`, `ClientRequests`) -/

/-- `ClientRequests`: the `DashMap<Id, oneshot::Sender<Response>>`.  The
one-shot delivery slots are identified by tokens drawn from `nextSlot`. -/
structure ClientRequests where
  table : List (Id × Nat)
  nextSlot : Nat
  deriving DecidableEq

/-- `ClientRequests::new`. -/
def ClientRequests.new : ClientRequests := ⟨[], 0⟩

/-- `ClientRequests::wait`: create a fresh one-shot slot under `id` and hand
back its receive side; panics (modelled as `none`) if `id` is already
pending. -/
def ClientRequests.wait (m : ClientRequests) (id : Id) : Option (ClientRequests × Nat) :=
  match regLookup m.table id with
  | some _ => none
  | none =>
      some ({ table := (id, m.nextSlot) :: m.table, nextSlot := m.nextSlot + 1 }, m.nextSlot)

/-- `ClientRequests::insert`: look up the response's ID; if a slot is waiting,
remove it and deliver the response through it (the delivery is the returned
`(slot, response)` pair); otherwise log and discard.  A response with a null
ID is also discarded. -/
def ClientRequests.insert (m : ClientRequests) (r : Response) :
    ClientRequests × Option (Nat × Response) :=
  match r.id with
  | none => (m, none)
  | some id =>
      match regLookup m.table id with
      | some slot => ({ m with table := regRemove m.table id }, some (slot, r))
      | none => (m, none)

theorem regRemove_of_lookup_none {r : List (Id × Nat)} {id : Id}
    (h : regLookup r id = none) : regRemove r id = r := by
  induction r with
  | nil => rfl
  | cons p r ih =>
      obtain ⟨i, u⟩ := p
      by_cases hi : i = id
      · subst hi
        simp [regLookup] at h
      · simp only [regLookup, if_neg hi] at h
        simp only [regRemove, List.filter_cons] at ih ⊢
        rw [if_pos (by simpa using hi), ih h]

/-- Claim C9: a response whose ID matches an entry created by a prior
`wait(id)` removes that single entry and is delivered, exactly as received,
through that entry's slot; a response with a null ID, or one whose ID has no
matching entry, is discarded and leaves the table unchanged. -/
theorem clientRequests_insert_correlation (m : ClientRequests) (r : Response) :
    (∀ id m1 slot, m.wait id = some (m1, slot) → r.id = some id →
        m1.insert r =
          ({ table := m.table, nextSlot := m.nextSlot + 1 }, some (slot, r))) ∧
      (r.id = none → m.insert r = (m, none)) ∧
      (∀ id, r.id = some id → regLookup m.table id = none → m.insert r = (m, none)) := by
  refine ⟨?_, ?_, ?_⟩
  · intro id m1 slot hw hid
    rcases ho : regLookup m.table id with _ | u
    · rw [ClientRequests.wait, ho] at hw
      injection hw with hw
      injection hw with hw1 hw2
      subst hw2
      subst hw1
      have hrm : regRemove ((id, m.nextSlot) :: m.table) id = m.table := by
        simp only [regRemove, List.filter_cons, bne_self_eq_false, Bool.false_eq_true,
          if_false]
        exact regRemove_of_lookup_none ho
      simp [ClientRequests.insert, hid, regLookup, hrm]
    · rw [ClientRequests.wait, ho] at hw
      exact absurd hw (by simp)
  · intro h
    simp [ClientRequests.insert, h]
  · intro id h1 h2
    simp [ClientRequests.insert, h1, h2]

theorem clientRequests_insert_correlation_witness :
    ClientRequests.new.wait (Id.number 3) = some (⟨[(Id.number 3, 0)], 1⟩, 0) ∧
      (Response.ok Json.null (Id.number 3)).id = some (Id.number 3) ∧
      ClientRequests.insert ⟨[(Id.number 3, 0)], 1⟩ (Response.ok Json.null (Id.number 3)) =
        (⟨[], 1⟩, some (0, Response.ok Json.null (Id.number 3))) :=
  ⟨by decide, by decide,
   (clientRequests_insert_correlation ClientRequests.new
      (Response.ok Json.null (Id.number 3))).1 (Id.number 3) ⟨[(Id.number 3, 0)], 1⟩ 0
     (by decide) (by decide)⟩

/-! ## Session state (`src/server.rs`) and the service (`src/service.rs`) -/

/-- `server::StateKind`. -/
inductive StateKind where
  | Uninitialized
  | Initializing
  | Initialized
  | ShutDown
  | Exited
  deriving DecidableEq

/-- `service::ExitedError`. -/
structure ExitedError where
  deriving DecidableEq

/-- `jsonrpc::Incoming`, with the generated `ServerRequest` type kept as a
type parameter (the dispatch table is an external collaborator). -/
inductive Incoming (Req : Type) where
  | request (r : Req)
  | response (r : Response)
  deriving DecidableEq

/-- Observable state of an `LspService`: the atomic session state and the
pending-client registry (the backend and the pending-server registry are
owned by the generated dispatch function, which `call` receives as a
parameter). -/
structure LspService where
  state : StateKind
  pending_client : ClientRequests
  deriving DecidableEq

/-- `LspService::poll_ready`. -/
def LspService.poll_ready (s : LspService) : Except ExitedError Unit :=
  if s.state = .Exited then .error ⟨⟩ else .ok ()

/-- `LspService::call`.  `handle_request` is the generated
`generated_impl::handle_request` dispatch closed over the backend and the
pending-server registry; it is only consulted when the state is not
`Exited`. -/
def LspService.call {Req : Type}
    (handle_request : Req → LspService → Option Outgoing × LspService)
    (s : LspService) (request : Incoming Req) :
    Except ExitedError (Option Outgoing) × LspService :=
  if s.state = .Exited then (.error ⟨⟩, s)
  else
    match request with
    | .request req =>
        let (out, s1) := handle_request req s
        (.ok out, s1)
    | .response res =>
        (.ok none, { s with pending_client := (s.pending_client.insert res).1 })

/-- A sequence of `call` invocations, returning each call's outcome and the
final service state. -/
def LspService.callTrace {Req : Type}
    (handle_request : Req → LspService → Option Outgoing × LspService) :
    LspService → List (Incoming Req) →
      List (Except ExitedError (Option Outgoing)) × LspService
  | s, [] => ([], s)
  | s, msg :: msgs =>
      let (r, s1) := LspService.call handle_request s msg
      let (rs, s2) := LspService.callTrace handle_request s1 msgs
      (r :: rs, s2)

theorem callTrace_exited {Req : Type}
    (handle_request : Req → LspService → Option Outgoing × LspService)
    (s : LspService) (h : s.state = .Exited) :
    ∀ msgs : List (Incoming Req),
      LspService.callTrace handle_request s msgs =
        (msgs.map fun _ => .error ⟨⟩, s)
  | [] => rfl
  | msg :: msgs => by
      have hc : LspService.call handle_request s msg = (.error ⟨⟩, s) := by
        simp [LspService.call, h]
      simp [LspService.callTrace, hc, callTrace_exited handle_request s h msgs]

/-- Claim C3: once the session state is `Exited`, `poll_ready` yields
`ExitedError`, and every subsequent `call` — for any incoming message and any
generated dispatch function — yields `ExitedError` without ever leaving the
`Exited` state. -/
theorem exited_gate {Req : Type}
    (handle_request : Req → LspService → Option Outgoing × LspService)
    (s : LspService) (h : s.state = .Exited) (msgs : List (Incoming Req)) :
    s.poll_ready = .error ⟨⟩ ∧
      (LspService.callTrace handle_request s msgs).1 =
        (msgs.map fun _ => .error ⟨⟩) ∧
      (LspService.callTrace handle_request s msgs).2 = s := by
  rw [callTrace_exited handle_request s h msgs]
  exact ⟨by simp [LspService.poll_ready, h], rfl, rfl⟩

theorem exited_gate_witness :
    (⟨.Exited, ClientRequests.new⟩ : LspService).state = .Exited ∧
      (@LspService.callTrace Unit (fun _ s => (none, s))
          ⟨.Exited, ClientRequests.new⟩
          [.request (), .response (Response.ok Json.null (Id.number 0))]).1 =
        [.error ⟨⟩, .error ⟨⟩] :=
  ⟨rfl,
   (@exited_gate Unit (fun _ s => (none, s)) ⟨.Exited, ClientRequests.new⟩ rfl
      [.request (), .response (Response.ok Json.null (Id.number 0))]).2.1⟩

/-! ## Client handle (`src/client.rs`) -/

/-- Observable state of a `Client`: the atomic `request_id` counter, the
pending-client registry, the shared session state, and the contents of the
outbound `mpsc` sink in send order. -/
structure Client where
  request_id : Nat
  pending_requests : ClientRequests
  state : StateKind
  outbox : List Outgoing
  deriving DecidableEq

/-- `Client::send_notification`: push the notification onto the sink (the
send-failure branch only logs, so the sink is modelled as always open). -/
def Client.send_notification (c : Client) (method : String) (params : Json) : Client :=
  { c with outbox := c.outbox ++ [Outgoing.request (ClientRequest.notif method params)] }

/-- `Client::send_notification_initialized`: send only when the state is
`Initialized` or `ShutDown`, otherwise suppress with a trace log. -/
def Client.send_notification_initialized (c : Client) (method : String) (params : Json) :
    Client :=
  if c.state = .Initialized ∨ c.state = .ShutDown then
    c.send_notification method params
  else c

/-- `Client::log_message` (params already serialized). -/
def Client.log_message (c : Client) (params : Json) : Client :=
  c.send_notification "window/logMessage" params

/-- `Client::show_message`. -/
def Client.show_message (c : Client) (params : Json) : Client :=
  c.send_notification "window/showMessage" params

/-- `Client::telemetry_event`, including the scalar-wrapping shim (a value
that is not null, not an array and not an object is wrapped in a one-element
array).  `serde_json::to_value` never fails on an already-built value, so the
error branch is dead here. -/
def Client.telemetry_event (c : Client) (data : Json) : Client :=
  let value := if !data.isNull && !data.isArray && !data.isObject then Json.arr [data] else data
  c.send_notification "telemetry/event" value

/-- `Client::publish_diagnostics`. -/
def Client.publish_diagnostics (c : Client) (params : Json) : Client :=
  c.send_notification_initialized "textDocument/publishDiagnostics" params

/-- Which arm of the `select!` inside `Client::send_request` wins. -/
inductive SelectWinner where
  | cancelled
  | responded (r : Response)

/-- `Client::send_request`, decomposed over the winning arm of its `select!`.
`parse_result` stands for the `serde_json::from_value::<R::Result>`
deserialisation of a successful response body (the serde error text is not
modelled, so the `ParseError` message is empty); `has_token` records whether
the caller passed a cancellation token — without one the cancellation arm
awaits `future::pending()` and can never win.  `none` models a panic: the
`expect` on the `u64 → i32` cast overflowing, or a `wait` on a duplicate
ID. -/
def Client.send_request (c : Client) (method : String) (params : Json)
    (parse_result : Json → Option Json) (has_token : Bool) (w : SelectWinner) :
    Option (Client × Except Error Json) :=
  let id := c.request_id
  let c1 : Client := { c with request_id := c.request_id + 1 }
  match c1.pending_requests.wait (Id.number id) with
  | none => none
  | some (pending1, _slot) =>
      let c2 : Client :=
        { c1 with
          pending_requests := pending1,
          outbox := c1.outbox ++
            [Outgoing.request (ClientRequest.request method params (Id.number id))] }
      match w, has_token with
      | .cancelled, true =>
          if id < 2 ^ 31 then
            let c3 : Client :=
              { c2 with pending_requests :=
                  ⟨regRemove c2.pending_requests.table (Id.number id),
                   c2.pending_requests.nextSlot⟩ }
            let c4 := c3.send_notification "$/cancelRequest"
              (Json.obj [("id", Json.num (Int.ofNat id))])
            some (c4, .error Error.request_cancelled)
          else none
      | .cancelled, false => none
      | .responded r, _ =>
          match r.into_parts.2 with
          | .error e => some (c2, .error e)
          | .ok v =>
              match parse_result v with
              | some x => some (c2, .ok x)
              | none =>
                  some (c2, .error { code := .parseError, message := "", data := none })

/-- Claim C7: when `send_request` was issued with a cancellation token and
the token fires before the correlated response arrives, the pending entry for
the request's ID is removed (the table returns to its pre-request contents),
a `$/cancelRequest` notification carrying the integer form of that ID is
emitted on the outbound sink right after the request itself, and the caller
observes the `request cancelled` error, whose code is `-32800`. -/
theorem send_request_cancelled (c : Client) (method : String) (params : Json)
    (parse_result : Json → Option Json)
    (hfresh : regLookup c.pending_requests.table (Id.number c.request_id) = none)
    (hid : c.request_id < 2 ^ 31) :
    c.send_request method params parse_result true .cancelled =
        some
          ({ c with
              request_id := c.request_id + 1,
              pending_requests :=
                ⟨c.pending_requests.table, c.pending_requests.nextSlot + 1⟩,
              outbox := c.outbox ++
                [Outgoing.request
                   (ClientRequest.request method params (Id.number c.request_id)),
                 Outgoing.request
                   (ClientRequest.notif "$/cancelRequest"
                     (Json.obj [("id", Json.num (Int.ofNat c.request_id))]))] },
           .error Error.request_cancelled) ∧
      Error.request_cancelled.code.code = -32800 := by
  constructor
  · have hrm : regRemove
        ((Id.number c.request_id, c.pending_requests.nextSlot) :: c.pending_requests.table)
        (Id.number c.request_id) = c.pending_requests.table := by
      simp only [regRemove, List.filter_cons, bne_self_eq_false, Bool.false_eq_true,
        if_false]
      exact regRemove_of_lookup_none hfresh
    simp [Client.send_request, ClientRequests.wait, hfresh, hid, hrm,
      Client.send_notification]
    omega
  · decide

theorem send_request_cancelled_witness :
    regLookup (ClientRequests.new).table (Id.number 0) = none ∧ 0 < 2 ^ 31 ∧
      Client.send_request ⟨0, ClientRequests.new, .Initialized, []⟩ "workspace/applyEdit"
          Json.null (fun v => some v) true .cancelled =
        some
          (⟨1, ⟨[], 1⟩, .Initialized,
            [Outgoing.request
               (ClientRequest.request "workspace/applyEdit" Json.null (Id.number 0)),
             Outgoing.request
               (ClientRequest.notif "$/cancelRequest"
                 (Json.obj [("id", Json.num 0)]))]⟩,
           .error Error.request_cancelled) :=
  ⟨by decide, by decide,
   (send_request_cancelled ⟨0, ClientRequests.new, .Initialized, []⟩ "workspace/applyEdit"
      Json.null (fun v => some v) (by decide) (by decide)).1⟩

/-- Claim C8 as stated is false on the code: `log_message` pushes its
notification onto the outbound sink even while the session state is still
`Uninitialized`, instead of suppressing it. -/
theorem client_gate_counterexample :
    ¬ ((Client.log_message ⟨0, ClientRequests.new, .Uninitialized, []⟩ Json.null).outbox
        = []) := by
  decide

/-- Claim C8 (amended): only `publish_diagnostics` follows the
initialization gate — it sends exactly when the state is `Initialized` or
`ShutDown` and is suppressed otherwise — while `log_message`, `show_message`
and `telemetry_event` push their notifications unconditionally, in every
session state. -/
theorem client_gate (c : Client) (params : Json) :
    ((c.state = .Initialized ∨ c.state = .ShutDown) →
        c.publish_diagnostics params =
          c.send_notification "textDocument/publishDiagnostics" params) ∧
      (c.state ≠ .Initialized → c.state ≠ .ShutDown → c.publish_diagnostics params = c) ∧
      (c.log_message params).outbox =
        c.outbox ++ [Outgoing.request (ClientRequest.notif "window/logMessage" params)] ∧
      (c.show_message params).outbox =
        c.outbox ++ [Outgoing.request (ClientRequest.notif "window/showMessage" params)] ∧
      (c.telemetry_event params).outbox =
        c.outbox ++
          [Outgoing.request (ClientRequest.notif "telemetry/event"
            (if !params.isNull && !params.isArray && !params.isObject then
              Json.arr [params] else params))] := by
  refine ⟨?_, ?_, ?_, ?_, ?_⟩
  · intro h
    simp [Client.publish_diagnostics, Client.send_notification_initialized, h]
  · intro h1 h2
    simp [Client.publish_diagnostics, Client.send_notification_initialized, h1, h2]
  · simp [Client.log_message, Client.send_notification]
  · simp [Client.show_message, Client.send_notification]
  · simp [Client.telemetry_event, Client.send_notification]

theorem client_gate_witness :
    ((⟨0, ClientRequests.new, .Uninitialized, []⟩ : Client).state ≠ .Initialized ∧
        (⟨0, ClientRequests.new, .Uninitialized, []⟩ : Client).state ≠ .ShutDown) ∧
      Client.publish_diagnostics ⟨0, ClientRequests.new, .Uninitialized, []⟩ Json.null =
        ⟨0, ClientRequests.new, .Uninitialized, []⟩ :=
  ⟨⟨by decide, by decide⟩,
   (client_gate ⟨0, ClientRequests.new, .Uninitialized, []⟩ Json.null).2.1
     (by decide) (by decide)⟩

/-! ## JSON text (model of `serde_json::to_string` / `from_str`)

The byte stream is modelled as `List Char`, with `Content-Length` counted in
those units consistently on the encode and decode sides.  The serializer
mirrors serde_json's compact formatter (double-quote, backslash, `\b`,
`\f`, `\n`, `\r`, `\t` escapes, other control characters as `\u00XX`
with lowercase hex, no whitespace); the parser accepts standard JSON with
integer numbers, rejecting what serde rejects (unknown escapes, raw control
characters in strings, trailing garbage).  Non-BMP `\uXXXX` surrogate pairs
are outside the modelled range. -/

def isWsChar (c : Char) : Bool :=
  c = ' ' || c = '\t' || c = '\n' || c = '\r'

def skipWs : List Char → List Char
  | [] => []
  | c :: r => if isWsChar c then skipWs r else c :: r

/-- Decimal digit characters of a natural number, most significant first. -/
def natChars (n : Nat) : List Char :=
  if h : n < 10 then [Char.ofNat (48 + n)]
  else natChars (n / 10) ++ [Char.ofNat (48 + n % 10)]
decreasing_by exact Nat.div_lt_self (by omega) (by omega)

/-- Value of a digit string (the usual left fold). -/
def digitsToNat (ds : List Char) : Nat :=
  ds.foldl (fun a c => a * 10 + (c.toNat - 48)) 0

/-- Maximal run of leading decimal digits. -/
def takeDigits : List Char → List Char × List Char
  | [] => ([], [])
  | c :: r =>
      if c.isDigit then
        let (ds, rest) := takeDigits r
        (c :: ds, rest)
      else ([], c :: r)

/-- One-or-more digits, maximal munch. -/
def parseNat (input : List Char) : Option (Nat × List Char) :=
  match takeDigits input with
  | ([], _) => none
  | (ds, rest) => some (digitsToNat ds, rest)

/-- Lowercase hex digit (serde_json's `\u00XX` table). -/
def hexDigit (n : Nat) : Char :=
  if n < 10 then Char.ofNat (48 + n) else Char.ofNat (87 + n)

def hexVal (c : Char) : Option Nat :=
  if c.isDigit then some (c.toNat - 48)
  else if 'a' ≤ c ∧ c ≤ 'f' then some (c.toNat - 87)
  else if 'A' ≤ c ∧ c ≤ 'F' then some (c.toNat - 55)
  else none

def hex4 (a b c d : Char) : Option Nat :=
  match hexVal a, hexVal b, hexVal c, hexVal d with
  | some x, some y, some z, some w => some (4096 * x + 256 * y + 16 * z + w)
  | _, _, _, _ => none

/-- Single-character escapes accepted after a backslash. -/
def unescapeChar (e : Char) : Option Char :=
  if e = '\x22' then some '\x22'
  else if e = '\x5c' then some '\x5c'
  else if e = '/' then some '/'
  else if e = 'b' then some '\x08'
  else if e = 'f' then some '\x0c'
  else if e = 'n' then some '\n'
  else if e = 'r' then some '\r'
  else if e = 't' then some '\t'
  else none

/-- serde_json's escaping of one string character. -/
def escapeChar (c : Char) : List Char :=
  if c = '\x22' then ['\x5c', '\x22']
  else if c = '\x5c' then ['\x5c', '\x5c']
  else if c = '\x08' then ['\x5c', 'b']
  else if c = '\x0c' then ['\x5c', 'f']
  else if c = '\n' then ['\x5c', 'n']
  else if c = '\r' then ['\x5c', 'r']
  else if c = '\t' then ['\x5c', 't']
  else if c.toNat < 32 then
    ['\x5c', 'u', '0', '0', hexDigit (c.toNat / 16), hexDigit (c.toNat % 16)]
  else [c]

def escapeList : List Char → List Char
  | [] => []
  | c :: r => escapeChar c ++ escapeList r

/-- Parse the remainder of a JSON string (after the opening quote), returning
the decoded characters and the input following the closing quote. -/
def parseStrChars : List Char → Option (List Char × List Char)
  | [] => none
  | c :: r =>
      if c = '\x22' then some ([], r)
      else if c = '\x5c' then
        match r with
        | [] => none
        | e :: r1 =>
            if e = 'u' then
              match r1 with
              | h1 :: h2 :: h3 :: h4 :: r2 =>
                  match hex4 h1 h2 h3 h4 with
                  | some v =>
                      if v < 0xD800 then
                        match parseStrChars r2 with
                        | some (cs, rest) => some (Char.ofNat v :: cs, rest)
                        | none => none
                      else none
                  | none => none
              | _ => none
            else
              match unescapeChar e with
              | some ec =>
                  match parseStrChars r1 with
                  | some (cs, rest) => some (ec :: cs, rest)
                  | none => none
              | none => none
      else if c.toNat < 32 then none
      else
        match parseStrChars r with
        | some (cs, rest) => some (c :: cs, rest)
        | none => none

/-- serde_json's integer formatting. -/
def serInt (n : Int) : List Char :=
  if n < 0 then '-' :: natChars n.natAbs else natChars n.toNat

mutual

/-- `serde_json::to_string` on the modelled value universe (compact,
no whitespace). -/
def serVal : Json → List Char
  | .null => ['n', 'u', 'l', 'l']
  | .bool b => if b then ['t', 'r', 'u', 'e'] else ['f', 'a', 'l', 's', 'e']
  | .num n => serInt n
  | .str s => '\x22' :: (escapeList s.data ++ ['\x22'])
  | .arr [] => ['[', ']']
  | .arr (v :: vs) => '[' :: (serVal v ++ serItems vs)
  | .obj [] => ['\x7b', '\x7d']
  | .obj (m :: ms) => '\x7b' :: (serMember m ++ serMembers ms)

/-- Serialize the tail of an array: `,`-separated items then `]`. -/
def serItems : List Json → List Char
  | [] => [']']
  | v :: vs => ',' :: (serVal v ++ serItems vs)

/-- Serialize one object member as `"key":value`. -/
def serMember : String × Json → List Char
  | (k, v) => ('\x22' :: (escapeList k.data ++ ['\x22', ':'])) ++ serVal v

/-- Serialize the tail of an object. -/
def serMembers : List (String × Json) → List Char
  | [] => ['\x7d']
  | m :: ms => ',' :: (serMember m ++ serMembers ms)

end

mutual

/-- Recursive JSON value parser (fuel-indexed to make the nesting recursion
structural). -/
def parseVal : Nat → List Char → Option (Json × List Char)
  | 0, _ => none
  | fuel + 1, input =>
      match skipWs input with
      | [] => none
      | c :: r =>
          if c = 'n' then
            match r with
            | 'u' :: 'l' :: 'l' :: rest => some (.null, rest)
            | _ => none
          else if c = 't' then
            match r with
            | 'r' :: 'u' :: 'e' :: rest => some (.bool true, rest)
            | _ => none
          else if c = 'f' then
            match r with
            | 'a' :: 'l' :: 's' :: 'e' :: rest => some (.bool false, rest)
            | _ => none
          else if c = '\x22' then
            match parseStrChars r with
            | some (cs, rest) => some (.str (String.mk cs), rest)
            | none => none
          else if c = '-' then
            match parseNat r with
            | some (n, rest) => some (.num (-(n : Int)), rest)
            | none => none
          else if c.isDigit then
            match parseNat (c :: r) with
            | some (n, rest) => some (.num (n : Int), rest)
            | none => none
          else if c = '[' then parseArrItems fuel r
          else if c = '\x7b' then parseObjItems fuel r
          else none

/-- Parse the items of an array, right after the opening bracket. -/
def parseArrItems : Nat → List Char → Option (Json × List Char)
  | 0, _ => none
  | fuel + 1, input =>
      match skipWs input with
      | [] => none
      | c :: r =>
          if c = ']' then some (.arr [], r)
          else
            match parseVal fuel (c :: r) with
            | some (v, r1) =>
                match parseArrTail fuel r1 with
                | some (vs, rest) => some (.arr (v :: vs), rest)
                | none => none
            | none => none

/-- Parse `,`-separated items until the closing bracket. -/
def parseArrTail : Nat → List Char → Option (List Json × List Char)
  | 0, _ => none
  | fuel + 1, input =>
      match skipWs input with
      | [] => none
      | c :: r =>
          if c = ']' then some ([], r)
          else if c = ',' then
            match parseVal fuel r with
            | some (v, r1) =>
                match parseArrTail fuel r1 with
                | some (vs, rest) => some (v :: vs, rest)
                | none => none
            | none => none
          else none

/-- Parse the members of an object, right after the opening brace. -/
def parseObjItems : Nat → List Char → Option (Json × List Char)
  | 0, _ => none
  | fuel + 1, input =>
      match skipWs input with
      | [] => none
      | c :: r =>
          if c = '\x7d' then some (.obj [], r)
          else
            match parseMember fuel (c :: r) with
            | some (m, r1) =>
                match parseObjTail fuel r1 with
                | some (ms, rest) => some (.obj (m :: ms), rest)
                | none => none
            | none => none

/-- Parse one `"key":value` member. -/
def parseMember : Nat → List Char → Option ((String × Json) × List Char)
  | 0, _ => none
  | fuel + 1, input =>
      match skipWs input with
      | [] => none
      | c :: r =>
          if c = '\x22' then
            match parseStrChars r with
            | some (ks, r1) =>
                match skipWs r1 with
                | [] => none
                | c2 :: r2 =>
                    if c2 = ':' then
                      match parseVal fuel r2 with
                      | some (v, rest) => some ((String.mk ks, v), rest)
                      | none => none
                    else none
            | none => none
          else none

/-- Parse `,`-separated members until the closing brace. -/
def parseObjTail : Nat → List Char → Option (List (String × Json) × List Char)
  | 0, _ => none
  | fuel + 1, input =>
      match skipWs input with
      | [] => none
      | c :: r =>
          if c = '\x7d' then some ([], r)
          else if c = ',' then
            match parseMember fuel r with
            | some (m, r1) =>
                match parseObjTail fuel r1 with
                | some (ms, rest) => some (m :: ms, rest)
                | none => none
            | none => none
          else none

end

/-- Model of `serde_json::from_str`: one JSON value, then only trailing
whitespace. -/
def deserialize (s : List Char) : Option Json :=
  match parseVal (s.length + 1) s with
  | some (v, rest) => if skipWs rest = [] then some v else none
  | none => none

/-- Whether the first character (if any) is a decimal digit; a serialized
number may not be followed by one. -/
def headIsDigit : List Char → Bool
  | [] => false
  | c :: _ => c.isDigit

/-! ### Round-trip lemmas for the JSON text model -/

theorem chr_toNat (n : Nat) (h : n < 0xD800) : (Char.ofNat n).toNat = n := by
  have hv : n.isValidChar := Or.inl h
  rw [Char.ofNat, dif_pos hv]
  show (⟨⟨BitVec.ofNatLt n _⟩, hv⟩ : Char).toNat = n
  simp [Char.toNat, UInt32.toNat, BitVec.toNat_ofNatLt]

theorem chr_rt (c : Char) (h : c.toNat < 0xD800) : Char.ofNat c.toNat = c := by
  apply Char.ext
  apply UInt32.ext
  exact chr_toNat c.toNat h

theorem skipWs_cons {c : Char} {r : List Char} (h : isWsChar c = false) :
    skipWs (c :: r) = c :: r := by
  simp [skipWs, h]

theorem isDigit_iff {c : Char} : c.isDigit = true ↔ 48 ≤ c.toNat ∧ c.toNat ≤ 57 := by
  simp only [Char.isDigit, Bool.and_eq_true, decide_eq_true_eq]
  simp [UInt32.le_def, BitVec.le_def, Char.toNat, UInt32.toNat]

theorem digitChar_isDigit {d : Nat} (h : d < 10) :
    (Char.ofNat (48 + d)).isDigit = true := by
  rw [isDigit_iff, chr_toNat _ (by omega)]
  omega

theorem isDigit_facts {c : Char} (h : c.isDigit = true) :
    ¬ c = 'n' ∧ ¬ c = 't' ∧ ¬ c = 'f' ∧ ¬ c = '\x22' ∧ ¬ c = '-' ∧ ¬ c = '[' ∧
      ¬ c = '\x7b' ∧ ¬ c = ']' ∧ ¬ c = ',' ∧ ¬ c = '\x7d' ∧ ¬ c = ':' ∧
      isWsChar c = false := by
  refine ⟨?_, ?_, ?_, ?_, ?_, ?_, ?_, ?_, ?_, ?_, ?_, ?_⟩
  all_goals first
  | (intro hc; subst hc; exact absurd h (by decide))
  | (by_cases e1 : c = ' '
     · subst e1; exact absurd h (by decide)
     · by_cases e2 : c = '\t'
       · subst e2; exact absurd h (by decide)
       · by_cases e3 : c = '\n'
         · subst e3; exact absurd h (by decide)
         · by_cases e4 : c = '\r'
           · subst e4; exact absurd h (by decide)
           · simp [isWsChar, e1, e2, e3, e4])

theorem natChars_ne_nil (n : Nat) : natChars n ≠ [] := by
  rw [natChars]
  by_cases h : n < 10
  · simp [h]
  · simp [h]

theorem natChars_digits (n : Nat) : ∀ c ∈ natChars n, c.isDigit = true := by
  induction n using Nat.strong_induction_on with
  | _ n ih =>
      rw [natChars]
      by_cases h : n < 10
      · simp only [dif_pos h, List.mem_singleton]
        rintro c rfl
        exact digitChar_isDigit h
      · simp only [dif_neg h]
        intro c hc
        rcases List.mem_append.mp hc with hc | hc
        · exact ih (n / 10) (Nat.div_lt_self (by omega) (by omega)) c hc
        · rw [List.mem_singleton] at hc
          subst hc
          exact digitChar_isDigit (Nat.mod_lt _ (by omega))

theorem digitsToNat_append_one (xs : List Char) (c : Char) :
    digitsToNat (xs ++ [c]) = 10 * digitsToNat xs + (c.toNat - 48) := by
  simp [digitsToNat, List.foldl_append]
  omega

theorem digitsToNat_natChars (n : Nat) : digitsToNat (natChars n) = n := by
  induction n using Nat.strong_induction_on with
  | _ n ih =>
      rw [natChars]
      by_cases h : n < 10
      · simp only [dif_pos h]
        simp [digitsToNat, chr_toNat (48 + n) (by omega)]
      · simp only [dif_neg h]
        rw [digitsToNat_append_one, ih (n / 10) (Nat.div_lt_self (by omega) (by omega)),
          chr_toNat (48 + n % 10) (by omega)]
        omega

theorem takeDigits_append {ds : List Char} (rest : List Char)
    (hd : ∀ c ∈ ds, c.isDigit = true) (hr : headIsDigit rest = false) :
    takeDigits (ds ++ rest) = (ds, rest) := by
  induction ds with
  | nil =>
      cases rest with
      | nil => rfl
      | cons c r =>
          simp only [headIsDigit] at hr
          simp [takeDigits, hr]
  | cons c ds ih =>
      have hc : c.isDigit = true := hd c (List.mem_cons_self _ _)
      have ihh := ih (fun x hx => hd x (List.mem_cons_of_mem _ hx))
      simp [takeDigits, hc, ihh]

theorem parseNat_natChars (n : Nat) (rest : List Char) (hr : headIsDigit rest = false) :
    parseNat (natChars n ++ rest) = some (n, rest) := by
  have ht : takeDigits (natChars n ++ rest) = (natChars n, rest) :=
    takeDigits_append rest (natChars_digits n) hr
  rcases hnc : natChars n with _ | ⟨c, cs⟩
  · exact absurd hnc (natChars_ne_nil n)
  · rw [hnc] at ht
    unfold parseNat
    rw [ht]
    show some (digitsToNat (c :: cs), rest) = some (n, rest)
    rw [← hnc, digitsToNat_natChars]

theorem hexVal_hexDigit : ∀ n < 16, hexVal (hexDigit n) = some n := by decide

theorem parseStr_escape : ∀ (s : List Char) (rest : List Char),
    parseStrChars (escapeList s ++ ('\x22' :: rest)) = some (s, rest)
  | [], rest => by
      rw [escapeList, List.nil_append, parseStrChars.eq_def]
      simp
  | c :: cs, rest => by
      have ih := parseStr_escape cs rest
      rw [escapeList, List.append_assoc]
      by_cases h1 : c = '\x22'
      · subst h1
        rw [show escapeChar '\x22' = ['\x5c', '\x22'] from rfl]
        rw [show (['\x5c', '\x22'] : List Char) ++ (escapeList cs ++ ('\x22' :: rest)) =
          '\x5c' :: '\x22' :: (escapeList cs ++ ('\x22' :: rest)) from rfl]
        rw [parseStrChars.eq_def]
        simp [unescapeChar, ih]
      · by_cases h2 : c = '\x5c'
        · subst h2
          rw [show escapeChar '\x5c' = ['\x5c', '\x5c'] from rfl]
          rw [show (['\x5c', '\x5c'] : List Char) ++ (escapeList cs ++ ('\x22' :: rest)) =
            '\x5c' :: '\x5c' :: (escapeList cs ++ ('\x22' :: rest)) from rfl]
          rw [parseStrChars.eq_def]
          simp [unescapeChar, ih]
        · by_cases h3 : c = '\x08'
          · subst h3
            rw [show escapeChar '\x08' = ['\x5c', 'b'] from rfl]
            rw [show (['\x5c', 'b'] : List Char) ++ (escapeList cs ++ ('\x22' :: rest)) =
              '\x5c' :: 'b' :: (escapeList cs ++ ('\x22' :: rest)) from rfl]
            rw [parseStrChars.eq_def]
            simp [unescapeChar, ih]
          · by_cases h4 : c = '\x0c'
            · subst h4
              rw [show escapeChar '\x0c' = ['\x5c', 'f'] from rfl]
              rw [show (['\x5c', 'f'] : List Char) ++ (escapeList cs ++ ('\x22' :: rest)) =
                '\x5c' :: 'f' :: (escapeList cs ++ ('\x22' :: rest)) from rfl]
              rw [parseStrChars.eq_def]
              simp [unescapeChar, ih]
            · by_cases h5 : c = '\n'
              · subst h5
                rw [show escapeChar '\n' = ['\x5c', 'n'] from rfl]
                rw [show (['\x5c', 'n'] : List Char) ++ (escapeList cs ++ ('\x22' :: rest)) =
                  '\x5c' :: 'n' :: (escapeList cs ++ ('\x22' :: rest)) from rfl]
                rw [parseStrChars.eq_def]
                simp [unescapeChar, ih]
              · by_cases h6 : c = '\r'
                · subst h6
                  rw [show escapeChar '\r' = ['\x5c', 'r'] from rfl]
                  rw [show (['\x5c', 'r'] : List Char) ++ (escapeList cs ++ ('\x22' :: rest)) =
                    '\x5c' :: 'r' :: (escapeList cs ++ ('\x22' :: rest)) from rfl]
                  rw [parseStrChars.eq_def]
                  simp [unescapeChar, ih]
                · by_cases h7 : c = '\t'
                  · subst h7
                    rw [show escapeChar '\t' = ['\x5c', 't'] from rfl]
                    rw [show (['\x5c', 't'] : List Char) ++ (escapeList cs ++ ('\x22' :: rest)) =
                      '\x5c' :: 't' :: (escapeList cs ++ ('\x22' :: rest)) from rfl]
                    rw [parseStrChars.eq_def]
                    simp [unescapeChar, ih]
                  · by_cases h8 : c.toNat < 32
                    · rw [show escapeChar c =
                          ['\x5c', 'u', '0', '0', hexDigit (c.toNat / 16),
                            hexDigit (c.toNat % 16)] from by
                        rw [escapeChar, if_neg h1, if_neg h2, if_neg h3, if_neg h4,
                          if_neg h5, if_neg h6, if_neg h7, if_pos h8]]
                      rw [show (['\x5c', 'u', '0', '0', hexDigit (c.toNat / 16),
                          hexDigit (c.toNat % 16)] : List Char) ++
                          (escapeList cs ++ ('\x22' :: rest)) =
                        '\x5c' :: 'u' :: '0' :: '0' :: hexDigit (c.toNat / 16) ::
                          hexDigit (c.toNat % 16) ::
                          (escapeList cs ++ ('\x22' :: rest)) from rfl]
                      rw [parseStrChars.eq_def]
                      have hhi : hexVal (hexDigit (c.toNat / 16)) = some (c.toNat / 16) :=
                        hexVal_hexDigit _ (by omega)
                      have hlo : hexVal (hexDigit (c.toNat % 16)) = some (c.toNat % 16) :=
                        hexVal_hexDigit _ (by omega)
                      have hv : 4096 * 0 + 256 * 0 + 16 * (c.toNat / 16) + c.toNat % 16 =
                          c.toNat := by omega
                      simp only [hex4, hhi, hlo, show hexVal '0' = some 0 from by decide]
                      rw [hv]
                      simp only [show (c.toNat < 0xD800) = True from by simp; omega, if_true]
                      rw [chr_rt c (by omega)]
                      simp [ih]
                    · rw [show escapeChar c = [c] from by
                        rw [escapeChar, if_neg h1, if_neg h2, if_neg h3, if_neg h4,
                          if_neg h5, if_neg h6, if_neg h7, if_neg h8]]
                      rw [show ([c] : List Char) ++ (escapeList cs ++ ('\x22' :: rest)) =
                        c :: (escapeList cs ++ ('\x22' :: rest)) from rfl]
                      rw [parseStrChars.eq_def]
                      simp [h1, h2, h8, ih]

mutual

/-- Fuel sufficient for `parseVal` to consume a serialized value. -/
def fuelVal : Json → Nat
  | .arr l => fuelList l + 1
  | .obj l => fuelMembers l + 1
  | _ => 1

def fuelList : List Json → Nat
  | [] => 1
  | v :: vs => max (fuelVal v) (fuelList vs) + 1

def fuelMem : String × Json → Nat
  | (_, v) => fuelVal v + 1

def fuelMembers : List (String × Json) → Nat
  | [] => 1
  | m :: ms => max (fuelMem m) (fuelMembers ms) + 1

end

theorem serVal_head (v : Json) :
    ∃ c r, serVal v = c :: r ∧ isWsChar c = false ∧ ¬ c = ']' ∧ ¬ c = '\x7d' := by
  cases v with
  | null => exact ⟨'n', ['u', 'l', 'l'], by simp [serVal], by decide, by decide, by decide⟩
  | bool b =>
      cases b with
      | true =>
          exact ⟨'t', ['r', 'u', 'e'], by simp [serVal], by decide, by decide, by decide⟩
      | false =>
          exact ⟨'f', ['a', 'l', 's', 'e'], by simp [serVal], by decide, by decide, by decide⟩
  | num n =>
      by_cases hn : n < 0
      · exact ⟨'-', natChars n.natAbs, by simp [serVal, serInt, hn], by decide, by decide,
          by decide⟩
      · rcases hnc : natChars n.toNat with _ | ⟨c, cs⟩
        · exact absurd hnc (natChars_ne_nil _)
        · have hc : c.isDigit = true :=
            natChars_digits _ c (by rw [hnc]; exact List.mem_cons_self _ _)
          obtain ⟨_, _, _, _, _, _, _, hbr, _, hbc, _, hws⟩ := isDigit_facts hc
          exact ⟨c, cs, by simp [serVal, serInt, hn, hnc], hws, hbr, hbc⟩
  | str s =>
      exact ⟨'\x22', escapeList s.data ++ ['\x22'], by simp [serVal], by decide, by decide,
        by decide⟩
  | arr l =>
      cases l with
      | nil => exact ⟨'[', [']'], by simp [serVal], by decide, by decide, by decide⟩
      | cons v vs =>
          exact ⟨'[', serVal v ++ serItems vs, by simp [serVal], by decide, by decide,
            by decide⟩
  | obj l =>
      cases l with
      | nil => exact ⟨'\x7b', ['\x7d'], by simp [serVal], by decide, by decide, by decide⟩
      | cons m ms =>
          exact ⟨'\x7b', serMember m ++ serMembers ms, by simp [serVal], by decide,
            by decide, by decide⟩

theorem headIsDigit_serItems (vs : List Json) (rest : List Char) :
    headIsDigit (serItems vs ++ rest) = false := by
  cases vs with
  | nil =>
      rw [show serItems [] = [']'] from by simp [serItems]]
      rfl
  | cons v vs =>
      rw [show serItems (v :: vs) = ',' :: (serVal v ++ serItems vs) from by simp [serItems]]
      rfl

theorem headIsDigit_serMembers (ms : List (String × Json)) (rest : List Char) :
    headIsDigit (serMembers ms ++ rest) = false := by
  cases ms with
  | nil =>
      rw [show serMembers [] = ['\x7d'] from by simp [serMembers]]
      rfl
  | cons m ms =>
      rw [show serMembers (m :: ms) = ',' :: (serMember m ++ serMembers ms) from by
        simp [serMembers]]
      rfl

mutual

theorem parse_serVal : ∀ (v : Json) (rest : List Char) (fuel : Nat),
    fuelVal v ≤ fuel → headIsDigit rest = false →
    parseVal fuel (serVal v ++ rest) = some (v, rest)
  | .null, rest, fuel, hf, _ => by
      simp only [fuelVal] at hf
      rcases fuel with _ | f
      · omega
      · rw [show serVal .null = ['n', 'u', 'l', 'l'] from by simp [serVal]]
        rw [show (['n', 'u', 'l', 'l'] : List Char) ++ rest = 'n' :: 'u' :: 'l' :: 'l' :: rest from rfl]
        rw [parseVal.eq_def]
        rfl
  | .bool true, rest, fuel, hf, _ => by
      simp only [fuelVal] at hf
      rcases fuel with _ | f
      · omega
      · rw [show serVal (.bool true) = ['t', 'r', 'u', 'e'] from by simp [serVal]]
        rw [show (['t', 'r', 'u', 'e'] : List Char) ++ rest = 't' :: 'r' :: 'u' :: 'e' :: rest from rfl]
        rw [parseVal.eq_def]
        rfl
  | .bool false, rest, fuel, hf, _ => by
      simp only [fuelVal] at hf
      rcases fuel with _ | f
      · omega
      · rw [show serVal (.bool false) = ['f', 'a', 'l', 's', 'e'] from by simp [serVal]]
        rw [show (['f', 'a', 'l', 's', 'e'] : List Char) ++ rest =
          'f' :: 'a' :: 'l' :: 's' :: 'e' :: rest from rfl]
        rw [parseVal.eq_def]
        rfl
  | .num n, rest, fuel, hf, hr => by
      simp only [fuelVal] at hf
      rcases fuel with _ | f
      · omega
      by_cases hn : n < 0
      · rw [show serVal (.num n) = '-' :: natChars n.natAbs from by simp [serVal, serInt, hn]]
        rw [List.cons_append, parseVal.eq_def]
        dsimp only
        rw [show skipWs ('-' :: (natChars n.natAbs ++ rest)) =
          '-' :: (natChars n.natAbs ++ rest) from skipWs_cons (by decide)]
        dsimp only
        rw [if_neg (show ¬ ('-' : Char) = 'n' from by decide),
          if_neg (show ¬ ('-' : Char) = 't' from by decide),
          if_neg (show ¬ ('-' : Char) = 'f' from by decide),
          if_neg (show ¬ ('-' : Char) = '\x22' from by decide),
          if_pos (show ('-' : Char) = '-' from rfl)]
        rw [parseNat_natChars n.natAbs rest hr]
        dsimp only
        simp [Json.num.injEq, Int.ofNat_natAbs_of_nonpos (le_of_lt hn)]
      · rw [show serVal (.num n) = natChars n.toNat from by simp [serVal, serInt, hn]]
        rcases hnc : natChars n.toNat with _ | ⟨c, cs⟩
        · exact absurd hnc (natChars_ne_nil _)
        have hc : c.isDigit = true :=
          natChars_digits _ c (by rw [hnc]; exact List.mem_cons_self _ _)
        obtain ⟨h1, h2, h3, h4, h5, _, _, _, _, _, _, hws⟩ := isDigit_facts hc
        rw [List.cons_append, parseVal.eq_def]
        dsimp only
        rw [show skipWs (c :: (cs ++ rest)) = c :: (cs ++ rest) from skipWs_cons hws]
        dsimp only
        rw [if_neg h1, if_neg h2, if_neg h3, if_neg h4, if_neg h5, if_pos hc]
        have hpn : parseNat (c :: (cs ++ rest)) = some (n.toNat, rest) := by
          rw [← List.cons_append, ← hnc]
          exact parseNat_natChars n.toNat rest hr
        rw [hpn]
        dsimp only
        simp [Json.num.injEq, Int.toNat_of_nonneg (by omega : (0 : Int) ≤ n)]
  | .str s, rest, fuel, hf, hr => by
      simp only [fuelVal] at hf
      rcases fuel with _ | f
      · omega
      have hser : serVal (.str s) ++ rest =
          '\x22' :: (escapeList s.data ++ ('\x22' :: rest)) := by
        simp [serVal]
      rw [hser, parseVal.eq_def]
      dsimp only
      rw [show skipWs ('\x22' :: (escapeList s.data ++ ('\x22' :: rest))) =
        '\x22' :: (escapeList s.data ++ ('\x22' :: rest)) from skipWs_cons (by decide)]
      dsimp only
      rw [if_neg (show ¬ ('\x22' : Char) = 'n' from by decide),
        if_neg (show ¬ ('\x22' : Char) = 't' from by decide),
        if_neg (show ¬ ('\x22' : Char) = 'f' from by decide),
        if_pos (show ('\x22' : Char) = '\x22' from rfl)]
      rw [parseStr_escape s.data rest]
  | .arr [], rest, fuel, hf, _ => by
      simp only [fuelVal, fuelList] at hf
      rcases fuel with _ | f
      · omega
      rcases f with _ | g
      · omega
      rw [show serVal (.arr []) = ['[', ']'] from by simp [serVal]]
      rw [show ((['[', ']'] : List Char) ++ rest) = '[' :: ']' :: rest from rfl]
      rw [parseVal.eq_def]
      dsimp only
      rw [show skipWs ('[' :: ']' :: rest) = '[' :: ']' :: rest from skipWs_cons (by decide)]
      dsimp only
      rw [if_neg (show ¬ ('[' : Char) = 'n' from by decide),
        if_neg (show ¬ ('[' : Char) = 't' from by decide),
        if_neg (show ¬ ('[' : Char) = 'f' from by decide),
        if_neg (show ¬ ('[' : Char) = '\x22' from by decide),
        if_neg (show ¬ ('[' : Char) = '-' from by decide),
        if_neg (show ¬ ('[' : Char).isDigit = true from by decide),
        if_pos (show ('[' : Char) = '[' from rfl)]
      rw [parseArrItems.eq_def]
      rfl
  | .arr (v :: vs), rest, fuel, hf, hr => by
      simp only [fuelVal, fuelList] at hf
      rcases fuel with _ | f
      · omega
      rcases f with _ | g
      · omega
      rw [show serVal (.arr (v :: vs)) = '[' :: (serVal v ++ serItems vs) from by
        simp [serVal]]
      rw [List.cons_append, parseVal.eq_def]
      dsimp only
      rw [show skipWs ('[' :: ((serVal v ++ serItems vs) ++ rest)) =
        '[' :: ((serVal v ++ serItems vs) ++ rest) from skipWs_cons (by decide)]
      dsimp only
      rw [if_neg (show ¬ ('[' : Char) = 'n' from by decide),
        if_neg (show ¬ ('[' : Char) = 't' from by decide),
        if_neg (show ¬ ('[' : Char) = 'f' from by decide),
        if_neg (show ¬ ('[' : Char) = '\x22' from by decide),
        if_neg (show ¬ ('[' : Char) = '-' from by decide),
        if_neg (show ¬ ('[' : Char).isDigit = true from by decide),
        if_pos (show ('[' : Char) = '[' from rfl)]
      obtain ⟨c, r, hv, hws, hbr, hbc⟩ := serVal_head v
      have hin : (serVal v ++ serItems vs) ++ rest = c :: (r ++ (serItems vs ++ rest)) := by
        rw [hv]
        simp
      have hpv : parseVal g (c :: (r ++ (serItems vs ++ rest))) =
          some (v, serItems vs ++ rest) := by
        rw [show c :: (r ++ (serItems vs ++ rest)) = serVal v ++ (serItems vs ++ rest) from by
          rw [hv]
          rfl]
        exact parse_serVal v (serItems vs ++ rest) g (by omega) (headIsDigit_serItems vs rest)
      have hpt : parseArrTail g (serItems vs ++ rest) = some (vs, rest) :=
        parse_serItems vs rest g (by omega) hr
      rw [hin, parseArrItems.eq_def]
      dsimp only
      rw [show skipWs (c :: (r ++ (serItems vs ++ rest))) =
        c :: (r ++ (serItems vs ++ rest)) from skipWs_cons hws]
      dsimp only
      rw [if_neg hbr, hpv]
      dsimp only
      rw [hpt]
  | .obj [], rest, fuel, hf, _ => by
      simp only [fuelVal, fuelMembers] at hf
      rcases fuel with _ | f
      · omega
      rcases f with _ | g
      · omega
      rw [show serVal (.obj []) = ['\x7b', '\x7d'] from by simp [serVal]]
      rw [show ((['\x7b', '\x7d'] : List Char) ++ rest) = '\x7b' :: '\x7d' :: rest from rfl]
      rw [parseVal.eq_def]
      dsimp only
      rw [show skipWs ('\x7b' :: '\x7d' :: rest) = '\x7b' :: '\x7d' :: rest from
        skipWs_cons (by decide)]
      dsimp only
      rw [if_neg (show ¬ ('\x7b' : Char) = 'n' from by decide),
        if_neg (show ¬ ('\x7b' : Char) = 't' from by decide),
        if_neg (show ¬ ('\x7b' : Char) = 'f' from by decide),
        if_neg (show ¬ ('\x7b' : Char) = '\x22' from by decide),
        if_neg (show ¬ ('\x7b' : Char) = '-' from by decide),
        if_neg (show ¬ ('\x7b' : Char).isDigit = true from by decide),
        if_neg (show ¬ ('\x7b' : Char) = '[' from by decide),
        if_pos (show ('\x7b' : Char) = '\x7b' from rfl)]
      rw [parseObjItems.eq_def]
      rfl
  | .obj (m :: ms), rest, fuel, hf, hr => by
      simp only [fuelVal, fuelMembers] at hf
      rcases fuel with _ | f
      · omega
      rcases f with _ | g
      · omega
      rw [show serVal (.obj (m :: ms)) = '\x7b' :: (serMember m ++ serMembers ms) from by
        simp [serVal]]
      rw [List.cons_append, parseVal.eq_def]
      dsimp only
      rw [show skipWs ('\x7b' :: ((serMember m ++ serMembers ms) ++ rest)) =
        '\x7b' :: ((serMember m ++ serMembers ms) ++ rest) from skipWs_cons (by decide)]
      dsimp only
      rw [if_neg (show ¬ ('\x7b' : Char) = 'n' from by decide),
        if_neg (show ¬ ('\x7b' : Char) = 't' from by decide),
        if_neg (show ¬ ('\x7b' : Char) = 'f' from by decide),
        if_neg (show ¬ ('\x7b' : Char) = '\x22' from by decide),
        if_neg (show ¬ ('\x7b' : Char) = '-' from by decide),
        if_neg (show ¬ ('\x7b' : Char).isDigit = true from by decide),
        if_neg (show ¬ ('\x7b' : Char) = '[' from by decide),
        if_pos (show ('\x7b' : Char) = '\x7b' from rfl)]
      obtain ⟨k, x⟩ := m
      have hin : (serMember (k, x) ++ serMembers ms) ++ rest =
          '\x22' :: ((escapeList k.data ++ ['\x22', ':']) ++
            (serVal x ++ (serMembers ms ++ rest))) := by
        simp [serMember]
      have hpm : parseMember g
          ('\x22' :: ((escapeList k.data ++ ['\x22', ':']) ++
            (serVal x ++ (serMembers ms ++ rest)))) =
          some ((k, x), serMembers ms ++ rest) := by
        rw [← hin, List.append_assoc]
        exact parse_serMember (k, x) (serMembers ms ++ rest) g (by omega)
          (headIsDigit_serMembers ms rest)
      have hpt : parseObjTail g (serMembers ms ++ rest) = some (ms, rest) :=
        parse_serMembers ms rest g (by omega) hr
      rw [hin, parseObjItems.eq_def]
      dsimp only
      rw [show skipWs ('\x22' :: ((escapeList k.data ++ ['\x22', ':']) ++
          (serVal x ++ (serMembers ms ++ rest)))) =
        '\x22' :: ((escapeList k.data ++ ['\x22', ':']) ++
          (serVal x ++ (serMembers ms ++ rest))) from skipWs_cons (by decide)]
      dsimp only
      rw [if_neg (show ¬ ('\x22' : Char) = '\x7d' from by decide), hpm]
      dsimp only
      rw [hpt]

theorem parse_serItems : ∀ (vs : List Json) (rest : List Char) (fuel : Nat),
    fuelList vs ≤ fuel → headIsDigit rest = false →
    parseArrTail fuel (serItems vs ++ rest) = some (vs, rest)
  | [], rest, fuel, hf, _ => by
      simp only [fuelList] at hf
      rcases fuel with _ | f
      · omega
      rw [show serItems [] = [']'] from by simp [serItems]]
      rw [show ([']'] : List Char) ++ rest = ']' :: rest from rfl]
      rw [parseArrTail.eq_def]
      rfl
  | v :: vs, rest, fuel, hf, hr => by
      simp only [fuelList] at hf
      rcases fuel with _ | f
      · omega
      rw [show serItems (v :: vs) = ',' :: (serVal v ++ serItems vs) from by simp [serItems]]
      rw [List.cons_append, parseArrTail.eq_def]
      dsimp only
      rw [show skipWs (',' :: ((serVal v ++ serItems vs) ++ rest)) =
        ',' :: ((serVal v ++ serItems vs) ++ rest) from skipWs_cons (by decide)]
      dsimp only
      rw [if_neg (show ¬ (',' : Char) = ']' from by decide),
        if_pos (show (',' : Char) = ',' from rfl)]
      have hpv : parseVal f ((serVal v ++ serItems vs) ++ rest) =
          some (v, serItems vs ++ rest) := by
        rw [List.append_assoc]
        exact parse_serVal v _ f (by omega) (headIsDigit_serItems vs rest)
      have hpt : parseArrTail f (serItems vs ++ rest) = some (vs, rest) :=
        parse_serItems vs rest f (by omega) hr
      rw [hpv]
      dsimp only
      rw [hpt]

theorem parse_serMember : ∀ (m : String × Json) (rest : List Char) (fuel : Nat),
    fuelMem m ≤ fuel → headIsDigit rest = false →
    parseMember fuel (serMember m ++ rest) = some (m, rest)
  | (k, x), rest, fuel, hf, hr => by
      simp only [fuelMem] at hf
      rcases fuel with _ | f
      · omega
      have hser : serMember (k, x) ++ rest =
          '\x22' :: (escapeList k.data ++ ('\x22' :: (':' :: (serVal x ++ rest)))) := by
        simp [serMember]
      rw [hser, parseMember.eq_def]
      dsimp only
      rw [show skipWs ('\x22' :: (escapeList k.data ++ ('\x22' :: (':' :: (serVal x ++ rest))))) =
        '\x22' :: (escapeList k.data ++ ('\x22' :: (':' :: (serVal x ++ rest)))) from
        skipWs_cons (by decide)]
      dsimp only
      rw [if_pos (show ('\x22' : Char) = '\x22' from rfl)]
      rw [parseStr_escape k.data (':' :: (serVal x ++ rest))]
      dsimp only
      rw [show skipWs (':' :: (serVal x ++ rest)) = ':' :: (serVal x ++ rest) from
        skipWs_cons (by decide)]
      dsimp only
      rw [if_pos (show (':' : Char) = ':' from rfl)]
      rw [parse_serVal x rest f (by omega) hr]

theorem parse_serMembers : ∀ (ms : List (String × Json)) (rest : List Char) (fuel : Nat),
    fuelMembers ms ≤ fuel → headIsDigit rest = false →
    parseObjTail fuel (serMembers ms ++ rest) = some (ms, rest)
  | [], rest, fuel, hf, _ => by
      simp only [fuelMembers] at hf
      rcases fuel with _ | f
      · omega
      rw [show serMembers [] = ['\x7d'] from by simp [serMembers]]
      rw [show (['\x7d'] : List Char) ++ rest = '\x7d' :: rest from rfl]
      rw [parseObjTail.eq_def]
      rfl
  | m :: ms, rest, fuel, hf, hr => by
      simp only [fuelMembers] at hf
      rcases fuel with _ | f
      · omega
      rw [show serMembers (m :: ms) = ',' :: (serMember m ++ serMembers ms) from by
        simp [serMembers]]
      rw [List.cons_append, parseObjTail.eq_def]
      dsimp only
      rw [show skipWs (',' :: ((serMember m ++ serMembers ms) ++ rest)) =
        ',' :: ((serMember m ++ serMembers ms) ++ rest) from skipWs_cons (by decide)]
      dsimp only
      rw [if_neg (show ¬ (',' : Char) = '\x7d' from by decide),
        if_pos (show (',' : Char) = ',' from rfl)]
      have hpm : parseMember f ((serMember m ++ serMembers ms) ++ rest) =
          some (m, serMembers ms ++ rest) := by
        rw [List.append_assoc]
        exact parse_serMember m _ f (by omega) (headIsDigit_serMembers ms rest)
      have hpt : parseObjTail f (serMembers ms ++ rest) = some (ms, rest) :=
        parse_serMembers ms rest f (by omega) hr
      rw [hpm]
      dsimp only
      rw [hpt]

end

theorem serVal_length_pos (v : Json) : 1 ≤ (serVal v).length := by
  obtain ⟨c, r, hv, _⟩ := serVal_head v
  rw [hv]
  simp

theorem serItems_length_pos (vs : List Json) : 1 ≤ (serItems vs).length := by
  cases vs with
  | nil =>
      rw [show serItems [] = [']'] from by simp [serItems]]
      simp
  | cons v vs =>
      rw [show serItems (v :: vs) = ',' :: (serVal v ++ serItems vs) from by simp [serItems]]
      simp

theorem serMember_length (k : String) (x : Json) :
    (serMember (k, x)).length = (escapeList k.data).length + 3 + (serVal x).length := by
  rw [show serMember (k, x) = ('\x22' :: (escapeList k.data ++ ['\x22', ':'])) ++ serVal x
    from by simp [serMember]]
  simp [List.length_append]
  omega

theorem serMembers_length_pos (ms : List (String × Json)) : 1 ≤ (serMembers ms).length := by
  cases ms with
  | nil =>
      rw [show serMembers [] = ['\x7d'] from by simp [serMembers]]
      simp
  | cons m ms =>
      rw [show serMembers (m :: ms) = ',' :: (serMember m ++ serMembers ms) from by
        simp [serMembers]]
      simp

mutual

theorem fuelVal_le : ∀ v : Json, fuelVal v ≤ (serVal v).length + 1
  | .null => by simp [fuelVal, serVal]
  | .bool true => by simp [fuelVal, serVal]
  | .bool false => by simp [fuelVal, serVal]
  | .num n => by
      have := serVal_length_pos (.num n)
      simp only [fuelVal]
      omega
  | .str s => by
      have := serVal_length_pos (.str s)
      simp only [fuelVal]
      omega
  | .arr [] => by
      rw [show serVal (.arr []) = ['[', ']'] from by simp [serVal]]
      simp [fuelVal, fuelList]
  | .arr (v :: vs) => by
      have h1 := fuelVal_le v
      have h2 := fuelList_le vs
      have hp1 := serVal_length_pos v
      have hp2 := serItems_length_pos vs
      have hlen : (serVal (.arr (v :: vs))).length =
          1 + (serVal v).length + (serItems vs).length := by
        rw [show serVal (.arr (v :: vs)) = '[' :: (serVal v ++ serItems vs) from by
          simp [serVal]]
        simp [List.length_append]
        omega
      simp only [fuelVal, fuelList] at *
      omega
  | .obj [] => by
      rw [show serVal (.obj []) = ['\x7b', '\x7d'] from by simp [serVal]]
      simp [fuelVal, fuelMembers]
  | .obj (m :: ms) => by
      have h1 := fuelMem_le m
      have h2 := fuelMembers_le ms
      have hp1 : 1 ≤ (serMember m).length := by
        obtain ⟨k, x⟩ := m
        rw [serMember_length]
        omega
      have hp2 := serMembers_length_pos ms
      have hlen : (serVal (.obj (m :: ms))).length =
          1 + (serMember m).length + (serMembers ms).length := by
        rw [show serVal (.obj (m :: ms)) = '\x7b' :: (serMember m ++ serMembers ms) from by
          simp [serVal]]
        simp [List.length_append]
        omega
      simp only [fuelVal, fuelMembers] at *
      omega

theorem fuelList_le : ∀ vs : List Json, fuelList vs ≤ (serItems vs).length + 1
  | [] => by
      rw [show serItems [] = [']'] from by simp [serItems]]
      simp [fuelList]
  | v :: vs => by
      have h1 := fuelVal_le v
      have h2 := fuelList_le vs
      have hlen : (serItems (v :: vs)).length =
          1 + (serVal v).length + (serItems vs).length := by
        rw [show serItems (v :: vs) = ',' :: (serVal v ++ serItems vs) from by
          simp [serItems]]
        simp [List.length_append]
        omega
      simp only [fuelList] at *
      omega

theorem fuelMem_le : ∀ m : String × Json, fuelMem m ≤ (serMember m).length + 1
  | (k, x) => by
      have h1 := fuelVal_le x
      rw [serMember_length]
      simp only [fuelMem]
      omega

theorem fuelMembers_le : ∀ ms : List (String × Json),
    fuelMembers ms ≤ (serMembers ms).length + 1
  | [] => by
      rw [show serMembers [] = ['\x7d'] from by simp [serMembers]]
      simp [fuelMembers]
  | m :: ms => by
      have h1 := fuelMem_le m
      have h2 := fuelMembers_le ms
      have hlen : (serMembers (m :: ms)).length =
          1 + (serMember m).length + (serMembers ms).length := by
        rw [show serMembers (m :: ms) = ',' :: (serMember m ++ serMembers ms) from by
          simp [serMembers]]
        simp [List.length_append]
        omega
      simp only [fuelMembers] at *
      omega

end

/-- `from_str ∘ to_string = id` on the modelled JSON universe. -/
theorem deserialize_serVal (v : Json) : deserialize (serVal v) = some v := by
  have h := parse_serVal v [] ((serVal v).length + 1)
    (by have := fuelVal_le v; omega) rfl
  rw [List.append_nil] at h
  unfold deserialize
  rw [h]
  rfl

/-! ## The `nom` streaming header parsers (`src/codec.rs`, `mod parse`) -/

/-- The `nom::error::ErrorKind`s this parser can produce (plus `IsNot`, which
appears in the decoder's error mapping). -/
inductive ErrKind where
  | Tag
  | Digit
  | MapRes
  | CrLf
  | Char
  | IsNot
  | Satisfy
  | NoneOf
  | Many
  | Escaped
  deriving DecidableEq

/-- `nom::Err`: incomplete input (streaming) or a recoverable/fatal error. -/
inductive NomErr where
  | incomplete (needed : Option Nat)
  | err (k : ErrKind)
  | fail (k : ErrKind)
  deriving DecidableEq

/-- `nom::IResult` over `&[u8]` buffers: remaining input paired with the
parsed value. -/
abbrev PResult (α : Type) := Except NomErr (List Char × α)

/-- Sequencing of `nom` parsers (the `?`-style threading inside the `parse`
functions): on success continue with the remaining input and the value, on
failure propagate the error. -/
def pBind {α β : Type} (x : PResult α) (f : List Char → α → PResult β) : PResult β :=
  match x with
  | .ok (i, a) => f i a
  | .error e => .error e

/-- `nom::bytes::streaming::tag`. -/
def pTag (t : List Char) (i : List Char) : PResult Unit :=
  if t.length ≤ i.length then
    if i.take t.length = t then .ok (i.drop t.length, ()) else .error (.err .Tag)
  else
    if t.take i.length = i then .error (.incomplete (some (t.length - i.length)))
    else .error (.err .Tag)

/-- `nom::character::streaming::space0` (spaces and tabs; reaching the end of
input while matching is `Incomplete` in streaming mode). -/
def pSpace0 (i : List Char) : PResult Unit :=
  let rest := i.dropWhile (fun c => c = ' ' || c = '\t')
  if rest.isEmpty then .error (.incomplete (some 1)) else .ok (rest, ())

/-- `nom::character::streaming::digit1`. -/
def pDigit1 (i : List Char) : PResult (List Char) :=
  let ds := i.takeWhile Char.isDigit
  let rest := i.dropWhile Char.isDigit
  if rest.isEmpty then .error (.incomplete (some 1))
  else if ds.isEmpty then .error (.err .Digit)
  else .ok (rest, ds)

/-- `map_res(digit1, |s| from_utf8(s)?.parse::<usize>())`: the UTF-8 step is
the identity on the character model, and `usize` overflow fails with
`MapRes`. -/
def pContentLengthNum (i : List Char) : PResult Nat :=
  match pDigit1 i with
  | .ok (rest, ds) =>
      let n := digitsToNat ds
      if n < 2 ^ 64 then .ok (rest, n) else .error (.err .MapRes)
  | .error e => .error e

/-- `nom::character::streaming::crlf`. -/
def pCrlf (i : List Char) : PResult Unit :=
  match pTag ['\r', '\n'] i with
  | .ok r => .ok r
  | .error (.err .Tag) => .error (.err .CrLf)
  | .error e => .error e

/-- `nom::character::streaming::char`. -/
def pChar (c : Char) (i : List Char) : PResult Char :=
  match i with
  | [] => .error (.incomplete (some 1))
  | x :: r => if x = c then .ok (r, x) else .error (.err .Char)

/-- `nom::character::streaming::satisfy`. -/
def pSatisfy (p : Char → Bool) (i : List Char) : PResult Char :=
  match i with
  | [] => .error (.incomplete (some 1))
  | x :: r => if p x then .ok (r, x) else .error (.err .Satisfy)

/-- `nom::character::streaming::none_of`. -/
def pNoneOf (s : List Char) (i : List Char) : PResult Char :=
  match i with
  | [] => .error (.incomplete (some 1))
  | x :: r => if s.contains x then .error (.err .NoneOf) else .ok (r, x)

/-- `nom::combinator::opt`: catches `Err::Error` only. -/
def pOpt {α : Type} (p : List Char → PResult α) (i : List Char) : PResult (Option α) :=
  match p i with
  | .ok (r, v) => .ok (r, some v)
  | .error (.err _) => .ok (i, none)
  | .error e => .error e

/-- `nom::bytes::streaming::take`. -/
def pTake (n : Nat) (i : List Char) : PResult (List Char) :=
  if n ≤ i.length then .ok (i.drop n, i.take n)
  else .error (.incomplete (some (n - i.length)))

/-- `nom::multi::many0` (fuelled by the input length; a parser that succeeds
without consuming yields `ErrorKind::Many0`). -/
def pMany0Aux {α : Type} (p : List Char → PResult α) : Nat → List Char → PResult (List α)
  | 0, i => .ok (i, [])
  | fuel + 1, i =>
      match p i with
      | .error (.err _) => .ok (i, [])
      | .error e => .error e
      | .ok (r, v) =>
          if i.length ≤ r.length then .error (.err .Many)
          else
            match pMany0Aux p fuel r with
            | .ok (r2, vs) => .ok (r2, v :: vs)
            | .error e => .error e

def pMany0 {α : Type} (p : List Char → PResult α) (i : List Char) : PResult (List α) :=
  pMany0Aux p (i.length + 1) i

/-- `nom::multi::many1` (the first failure is propagated: `error::Error`'s
`append` keeps the inner error). -/
def pMany1 {α : Type} (p : List Char → PResult α) (i : List Char) : PResult (List α) :=
  match p i with
  | .error e => .error e
  | .ok (r, v) =>
      match pMany0 p r with
      | .ok (r2, vs) => .ok (r2, v :: vs)
      | .error e => .error e

/-- `nom::combinator::recognize`. -/
def pRecognize {α : Type} (p : List Char → PResult α) (i : List Char) : PResult (List Char) :=
  match p i with
  | .ok (r, _) => .ok (r, i.take (i.length - r.length))
  | .error e => .error e

/-- `nom::branch::alt` over two branches. -/
def pAlt2 {α : Type} (p q : List Char → PResult α) (i : List Char) : PResult α :=
  match p i with
  | .error (.err _) => q i
  | r => r

/-- `nom::bytes::streaming::escaped(normal, control, escapable)` with
single-character classes (sufficient for `content_type_quoted_string`);
reaching the end of input while matching is `Incomplete` in streaming
mode. -/
def pEscapedAux (normal esc : Char → Bool) : Nat → List Char → PResult Unit
  | 0, i => .ok (i, ())
  | _ + 1, [] => .error (.incomplete (some 1))
  | fuel + 1, c :: r =>
      if normal c then pEscapedAux normal esc fuel r
      else if c = '\x5c' then
        match r with
        | [] => .error (.incomplete (some 1))
        | e :: r2 =>
            if esc e then pEscapedAux normal esc fuel r2 else .error (.err .Escaped)
      else .ok (c :: r, ())

def pEscaped (normal esc : Char → Bool) (i : List Char) : PResult Unit :=
  pEscapedAux normal esc (i.length + 1) i

/-! The `parse` module of `src/codec.rs`. -/

/-- The `Content-Length` header name. -/
def clChars : List Char :=
  ['C', 'o', 'n', 't', 'e', 'n', 't', '-', 'L', 'e', 'n', 'g', 't', 'h']

/-- The `Content-Type` header name. -/
def ctChars : List Char :=
  ['C', 'o', 'n', 't', 'e', 'n', 't', '-', 'T', 'y', 'p', 'e']

structure ContentLength where
  length : Nat

structure MimeType where
  kind : List Char
  subkind : List Char

structure Parameter where
  attr : List Char
  value : List Char

structure ContentType where
  mime_type : MimeType
  parameters : List Parameter

def TOKEN_SPECIALS : List Char :=
  ['(', ')', '<', '>', '@', ',', ';', ':', '\x5c', '\x22', '/', '[', ']', '?', '.', '=']

/-- Rust `char::is_control` (`Cc` category). -/
def isCtrlChar (c : Char) : Bool :=
  c.toNat < 32 || (127 ≤ c.toNat && c.toNat ≤ 159)

/-- `parse::content_length`. -/
def content_length (input : List Char) : PResult ContentLength :=
  pBind (pTag clChars input) fun i _ =>
  pBind (pSpace0 i) fun i _ =>
  pBind (pTag [':'] i) fun i _ =>
  pBind (pSpace0 i) fun i _ =>
  pBind (pContentLengthNum i) fun i length =>
  pBind (pCrlf i) fun i _ =>
  .ok (i, ⟨length⟩)

/-- `parse::content_type_mime`. -/
def content_type_mime (i : List Char) : PResult MimeType :=
  pBind (pRecognize (pMany1 (pSatisfy (fun c => !c.isWhitespace && c != '/'))) i) fun i kind =>
  pBind (pTag ['/'] i) fun i _ =>
  pBind (pRecognize (pMany1 (pSatisfy (fun c => !c.isWhitespace && c != ';'))) i) fun i subkind =>
  .ok (i, ⟨kind, subkind⟩)

/-- `parse::content_type_token`. -/
def content_type_token (i : List Char) : PResult (List Char) :=
  pRecognize (pMany1 (pSatisfy (fun c =>
    !isCtrlChar c && !c.isWhitespace && !TOKEN_SPECIALS.contains c))) i

/-- `parse::content_type_quoted_string`. -/
def content_type_quoted_string (i : List Char) : PResult (List Char) :=
  pRecognize (fun j =>
    pBind (pChar '\x22' j) fun j _ =>
    pBind (pEscaped (fun c => !(['\x5c', '\x22'].contains c)) (fun e => e.toNat < 128) j)
      fun j _ =>
    pBind (pChar '\x22' j) fun j _ =>
    .ok (j, ())) i

/-- `parse::content_type_parameter`. -/
def content_type_parameter (i : List Char) : PResult Parameter :=
  pBind (pSpace0 i) fun i _ =>
  pBind (pTag [';'] i) fun i _ =>
  pBind (pSpace0 i) fun i _ =>
  pBind (content_type_token i) fun i attr =>
  pBind (pSpace0 i) fun i _ =>
  pBind (pTag ['='] i) fun i _ =>
  pBind (pSpace0 i) fun i _ =>
  pBind (pAlt2 content_type_token content_type_quoted_string i) fun i value =>
  .ok (i, ⟨attr, value⟩)

/-- `parse::content_type` (`content_type_validate` only logs warnings and is
omitted). -/
def content_type (input : List Char) : PResult ContentType :=
  pBind (pTag ctChars input) fun i _ =>
  pBind (pSpace0 i) fun i _ =>
  pBind (pTag [':'] i) fun i _ =>
  pBind (pSpace0 i) fun i _ =>
  pBind (content_type_mime i) fun i mime =>
  pBind (pMany0 content_type_parameter i) fun i params =>
  pBind (pCrlf i) fun i _ =>
  .ok (i, ⟨mime, params⟩)

/-- `parse::message`. -/
def parseMessage (input : List Char) : PResult (List Char) :=
  pBind (content_length input) fun i cl =>
  pBind (pOpt content_type i) fun i _ =>
  pBind (pCrlf i) fun i _ =>
  pTake cl.length i

/-! ## The framing codec itself (`src/codec.rs`) -/

/-- `codec::ParseError` (payloads of `Body`, `Encode` and `Utf8` are not
modelled). -/
inductive ParseError where
  | MissingHeader
  | InvalidLength
  | InvalidType
  | Body
  | Encode
  | Utf8
  deriving DecidableEq

/-- `LanguageServerCodec` state. -/
structure LanguageServerCodec where
  remaining_msg_bytes : Nat
  deriving DecidableEq

/-- `Content-Length: {n}\r\n\r\n`. -/
def frameHeader (n : Nat) : List Char :=
  clChars ++ [':', ' '] ++ natChars n ++ ['\r', '\n', '\r', '\n']

/-- `LanguageServerCodec::encode`: serialize, then append
`Content-Length: {len}\r\n\r\n{msg}` to the output buffer
(`serde_json::to_string` cannot fail on an already-built value, so the
`Result` is always `Ok`). -/
def LanguageServerCodec.encode (item : Json) (dst : List Char) : List Char :=
  let msg := serVal item
  dst ++ frameHeader msg.length ++ msg

/-- The error-code mapping in `decode`'s recovery arm. -/
def mapErrCode : ErrKind → ParseError
  | .Digit => .InvalidLength
  | .MapRes => .InvalidLength
  | .Char => .InvalidType
  | .IsNot => .InvalidType
  | _ => .MissingHeader

/-- `decode`'s recovery loop: advance one byte at a time while `parse::message`
keeps failing and the buffer is non-empty, then report the original error.
(On an empty buffer `parse::message` always fails with `Incomplete`, so the
loop returns immediately; matching on the buffer first is observably the
same.) -/
def recoveryScan (code : ErrKind) : List Char → ParseError × List Char
  | [] => (mapErrCode code, [])
  | c :: rest =>
      match parseMessage (c :: rest) with
      | .ok _ => (mapErrCode code, c :: rest)
      | .error _ => recoveryScan code rest

/-- `LanguageServerCodec::decode`: returns the decode result, the updated
codec state, and the remaining buffer (UTF-8 validation is the identity on
the character model, so the `Utf8` arm is dead). -/
def LanguageServerCodec.decode (c : LanguageServerCodec) (src : List Char) :
    Except ParseError (Option Json) × LanguageServerCodec × List Char :=
  if c.remaining_msg_bytes > src.length then (.ok none, c, src)
  else
    match parseMessage src with
    | .ok (remaining, msg) =>
        let len := src.length - remaining.length
        let result : Except ParseError (Option Json) :=
          match deserialize msg with
          | some parsed => .ok (some parsed)
          | none => .error .Body
        (result, ⟨0⟩, src.drop len)
    | .error (.incomplete (some min)) => (.ok none, ⟨min⟩, src)
    | .error (.incomplete none) => (.ok none, c, src)
    | .error (.err k) => (.error (recoveryScan k src).1, c, (recoveryScan k src).2)
    | .error (.fail k) => (.error (recoveryScan k src).1, c, (recoveryScan k src).2)

/-! ### Evaluation lemmas for the header parser -/

theorem pBind_ok {α β : Type} {x : PResult α} {i : List Char} {a : α}
    (h : x = .ok (i, a)) (f : List Char → α → PResult β) :
    pBind x f = f i a := by
  rw [h]
  rfl

theorem pBind_error {α β : Type} {x : PResult α} {e : NomErr}
    (h : x = .error e) (f : List Char → α → PResult β) :
    pBind x f = .error e := by
  rw [h]
  rfl

theorem pTag_prefix (t r : List Char) : pTag t (t ++ r) = .ok (r, ()) := by
  unfold pTag
  rw [if_pos (by simp : t.length ≤ (t ++ r).length),
    if_pos (List.take_left t r), List.drop_left]

theorem pSpace0_cons_no (c : Char) (r : List Char) (h1 : ¬ c = ' ') (h2 : ¬ c = '\t') :
    pSpace0 (c :: r) = .ok (c :: r, ()) := by
  simp [pSpace0, List.dropWhile_cons, h1, h2]

theorem pSpace0_one_space (c : Char) (r : List Char) (h1 : ¬ c = ' ') (h2 : ¬ c = '\t') :
    pSpace0 (' ' :: c :: r) = .ok (c :: r, ()) := by
  simp [pSpace0, List.dropWhile_cons, h1, h2]

theorem takeWhile_digits_append (ds rest : List Char)
    (hds : ∀ c ∈ ds, c.isDigit = true) (hr : headIsDigit rest = false) :
    (ds ++ rest).takeWhile Char.isDigit = ds ∧
      (ds ++ rest).dropWhile Char.isDigit = rest := by
  induction ds with
  | nil =>
      cases rest with
      | nil => exact ⟨rfl, rfl⟩
      | cons c r =>
          have hc : c.isDigit = false := hr
          simp [List.takeWhile_cons, List.dropWhile_cons, hc]
  | cons c t ih =>
      have hc : c.isDigit = true := hds c (by simp)
      have ht := ih (fun d hd => hds d (by simp [hd]))
      simp [List.takeWhile_cons, List.dropWhile_cons, hc, ht.1, ht.2]

theorem pDigit1_digits (ds rest : List Char) (hds : ∀ c ∈ ds, c.isDigit = true)
    (hne : ds ≠ []) (hr : headIsDigit rest = false) (hrne : rest ≠ []) :
    pDigit1 (ds ++ rest) = .ok (rest, ds) := by
  obtain ⟨ht, hd⟩ := takeWhile_digits_append ds rest hds hr
  simp only [pDigit1, ht, hd]
  rw [if_neg (by simp [List.isEmpty_iff, hrne]), if_neg (by simp [List.isEmpty_iff, hne])]

theorem pContentLengthNum_natChars (n : Nat) (rest : List Char)
    (hn : n < 2 ^ 64) (hr : headIsDigit rest = false) (hrne : rest ≠ []) :
    pContentLengthNum (natChars n ++ rest) = .ok (rest, n) := by
  unfold pContentLengthNum
  rw [pDigit1_digits (natChars n) rest (natChars_digits n) (natChars_ne_nil n) hr hrne]
  simp [digitsToNat_natChars]
  omega

theorem pCrlf_prefix (r : List Char) : pCrlf ('\r' :: '\n' :: r) = .ok (r, ()) := by
  unfold pCrlf
  rw [show ('\r' :: '\n' :: r) = ['\r', '\n'] ++ r from rfl, pTag_prefix]

theorem pTag_head_ne (c : Char) (t : List Char) (c' : Char) (i : List Char)
    (h : ¬ c' = c) : pTag (c :: t) (c' :: i) = .error (.err .Tag) := by
  unfold pTag
  by_cases hl : (c :: t).length ≤ (c' :: i).length
  · rw [if_pos hl, if_neg]
    intro heq
    rw [show (c :: t).length = t.length + 1 from rfl, List.take_succ_cons] at heq
    exact h (by injection heq)
  · rw [if_neg hl, if_neg]
    intro heq
    rw [show (c' :: i).length = i.length + 1 from rfl, List.take_succ_cons] at heq
    exact h (by injection heq; simp_all)

theorem pOpt_content_type_cr (r : List Char) :
    pOpt content_type ('\r' :: r) = .ok ('\r' :: r, none) := by
  have h : content_type ('\r' :: r) = .error (.err .Tag) := by
    unfold content_type
    exact pBind_error
      (pTag_head_ne 'C' ['o', 'n', 't', 'e', 'n', 't', '-', 'T', 'y', 'p', 'e'] '\r' r
        (by decide)) _
  simp [pOpt, h]

theorem pSpace0_space_natChars (n : Nat) (r : List Char) :
    pSpace0 (' ' :: (natChars n ++ r)) = .ok (natChars n ++ r, ()) := by
  obtain ⟨c, cs, hnc⟩ := List.exists_cons_of_ne_nil (natChars_ne_nil n)
  have hcd : c.isDigit = true := natChars_digits n c (by rw [hnc]; simp)
  have h1 : ¬ c = ' ' := by intro hc; rw [hc] at hcd; exact absurd hcd (by decide)
  have h2 : ¬ c = '\t' := by intro hc; rw [hc] at hcd; exact absurd hcd (by decide)
  rw [hnc, List.cons_append]
  exact pSpace0_one_space c (cs ++ r) h1 h2

theorem pTake_exact (b : List Char) : pTake b.length b = .ok ([], b) := by
  simp [pTake, List.drop_length, List.take_length]

/-- Feeding exactly one encoded frame to `parse::message` succeeds, consumes
the whole buffer, and returns the body. -/
theorem parseMessage_frame (body : List Char) (h64 : body.length < 2 ^ 64) :
    parseMessage (frameHeader body.length ++ body) = .ok ([], body) := by
  have hshape : frameHeader body.length ++ body =
      clChars ++ (':' :: ' ' :: (natChars body.length ++
        ('\r' :: '\n' :: ('\r' :: '\n' :: body)))) := by
    simp [frameHeader, List.append_assoc]
  have h1 := pTag_prefix clChars
    (':' :: ' ' :: (natChars body.length ++ ('\r' :: '\n' :: ('\r' :: '\n' :: body))))
  have h2 := pSpace0_cons_no ':'
    (' ' :: (natChars body.length ++ ('\r' :: '\n' :: ('\r' :: '\n' :: body))))
    (by decide) (by decide)
  have h3 : pTag [':']
      (':' :: ' ' :: (natChars body.length ++ ('\r' :: '\n' :: ('\r' :: '\n' :: body)))) =
      .ok (' ' :: (natChars body.length ++ ('\r' :: '\n' :: ('\r' :: '\n' :: body))), ()) :=
    pTag_prefix [':'] _
  have h4 := pSpace0_space_natChars body.length ('\r' :: '\n' :: ('\r' :: '\n' :: body))
  have h5 := pContentLengthNum_natChars body.length ('\r' :: '\n' :: ('\r' :: '\n' :: body))
    h64 rfl (by simp)
  have h6 := pCrlf_prefix ('\r' :: '\n' :: body)
  have h7 := pOpt_content_type_cr ('\n' :: body)
  have h8 := pCrlf_prefix body
  have h9 := pTake_exact body
  rw [hshape]
  simp only [parseMessage, content_length, h1, pBind, h2, h3, h4, h5, h6, h7, h8, h9]

/-- `encode` into an empty buffer produces exactly one frame. -/
theorem encode_empty (v : Json) :
    LanguageServerCodec.encode v [] = frameHeader (serVal v).length ++ serVal v := by
  simp [LanguageServerCodec.encode]

/-- Decoding a freshly encoded frame from a fresh codec yields the original
value, resets the state, and empties the buffer. -/
theorem decode_encode (v : Json) (h64 : (serVal v).length < 2 ^ 64) :
    LanguageServerCodec.decode ⟨0⟩ (LanguageServerCodec.encode v []) =
      (.ok (some v), ⟨0⟩, []) := by
  rw [encode_empty]
  unfold LanguageServerCodec.decode
  rw [if_neg (by simp)]
  rw [parseMessage_frame (serVal v) h64]
  simp [deserialize_serVal, List.drop_length]

/-! ### Recovery from garbage prefixes -/

/-- Whether `needle` occurs as a contiguous run inside `hay`. -/
def containsSeq (needle : List Char) : List Char → Bool
  | [] => needle.isEmpty
  | c :: t => needle.isPrefixOf (c :: t) || containsSeq needle t

theorem recoveryScan_cons (code : ErrKind) (c : Char) (rest : List Char) :
    recoveryScan code (c :: rest) =
      match parseMessage (c :: rest) with
      | .ok _ => (mapErrCode code, c :: rest)
      | .error _ => recoveryScan code rest := rfl

theorem recoveryScan_of_ok (code : ErrKind) (src : List Char) {r m : List Char}
    (h : parseMessage src = .ok (r, m)) :
    recoveryScan code src = (mapErrCode code, src) := by
  cases src with
  | nil => rfl
  | cons c t => rw [recoveryScan_cons, h]

theorem recoveryScan_of_error (code : ErrKind) (c : Char) (t : List Char) {e : NomErr}
    (h : parseMessage (c :: t) = .error e) :
    recoveryScan code (c :: t) = recoveryScan code t := by
  rw [recoveryScan_cons, h]

theorem pTag_not_prefix_long (t i : List Char) (hl : t.length ≤ i.length)
    (h : t.isPrefixOf i = false) : pTag t i = .error (.err .Tag) := by
  unfold pTag
  rw [if_pos hl, if_neg]
  intro heq
  have hp : t.isPrefixOf i = true := by
    rw [List.isPrefixOf_iff_prefix]
    exact List.prefix_iff_eq_take.mpr heq.symm
  simp [h] at hp

theorem clChars_inner_ne_C : ∀ k < clChars.length, 0 < k → clChars.get? k ≠ some 'C' := by
  decide

theorem not_prefix_of_not_contains (needle g : List Char) (hg : g ≠ [])
    (h : containsSeq needle g = false) : needle.isPrefixOf g = false := by
  cases g with
  | nil => exact absurd rfl hg
  | cons c t =>
      have he : containsSeq needle (c :: t) =
          (needle.isPrefixOf (c :: t) || containsSeq needle t) := rfl
      rw [he] at h
      exact (Bool.or_eq_false_iff.mp h).1

/-- No shifted occurrence of `Content-Length` exists while scanning through a
garbage prefix that does not itself start with it: the header literal contains
a single `C`, at index 0, so no match can straddle the garbage/frame
boundary. -/
theorem cl_not_prefix_garbage (g f0 : List Char) (hg : g ≠ [])
    (hnp : clChars.isPrefixOf g = false) :
    clChars.isPrefixOf (g ++ (clChars ++ f0)) = false := by
  by_contra hcon
  rw [Bool.not_eq_false, List.isPrefixOf_iff_prefix] at hcon
  obtain ⟨t, ht⟩ := hcon
  by_cases hl : clChars.length ≤ g.length
  · have h14 : (g ++ (clChars ++ f0)).take clChars.length = g.take clChars.length :=
      List.take_append_of_le_length hl
    have h2 : clChars = g.take clChars.length := by
      rw [← h14, ← ht, List.take_left]
    have hpre : clChars.isPrefixOf g = true := by
      rw [List.isPrefixOf_iff_prefix]
      exact List.prefix_iff_eq_take.mpr h2
    simp [hpre] at hnp
  · push_neg at hl
    have hglen : 0 < g.length := List.length_pos.mpr hg
    have hA : (clChars ++ t).get? g.length = clChars.get? g.length :=
      List.get?_append hl
    have hB : (g ++ (clChars ++ f0)).get? g.length = some 'C' := by
      rw [List.get?_append_right (le_refl g.length), Nat.sub_self]
      rfl
    rw [ht, hB] at hA
    exact clChars_inner_ne_C g.length hl hglen hA.symm

/-- At any position strictly inside the garbage, `parse::message` fails with a
`Tag` error (the `Content-Length` tag does not match and the buffer is long
enough that the tag comparison completes). -/
theorem parseMessage_garbage_error (x f0 : List Char)
    (hnp : clChars.isPrefixOf (x ++ (clChars ++ f0)) = false) :
    parseMessage (x ++ (clChars ++ f0)) = .error (.err .Tag) := by
  have hl : clChars.length ≤ (x ++ (clChars ++ f0)).length := by
    simp [List.length_append]
    omega
  have htag := pTag_not_prefix_long clChars _ hl hnp
  have hcl : content_length (x ++ (clChars ++ f0)) = .error (.err .Tag) := by
    unfold content_length
    exact pBind_error htag _
  unfold parseMessage
  exact pBind_error hcl _

/-- The recovery loop discards exactly the garbage prefix: it stops at the
first offset where `parse::message` succeeds, which is the start of the valid
frame, and reports the error mapped from the original failure code. -/
theorem recoveryScan_garbage (code : ErrKind) (g f0 : List Char)
    (hcl : containsSeq clChars g = false)
    (hok : ∃ r m, parseMessage (clChars ++ f0) = .ok (r, m)) :
    recoveryScan code (g ++ (clChars ++ f0)) = (mapErrCode code, clChars ++ f0) := by
  induction g with
  | nil =>
      obtain ⟨r, m, hr⟩ := hok
      rw [List.nil_append]
      exact recoveryScan_of_ok code _ hr
  | cons c t ih =>
      have hparts := Bool.or_eq_false_iff.mp hcl
      have hnp := cl_not_prefix_garbage (c :: t) f0 (by simp) hparts.1
      have herr : parseMessage (c :: (t ++ (clChars ++ f0))) = .error (.err .Tag) :=
        parseMessage_garbage_error (c :: t) f0 hnp
      rw [show (c :: t) ++ (clChars ++ f0) = c :: (t ++ (clChars ++ f0)) from rfl,
        recoveryScan_of_error code c _ herr]
      exact ih hparts.2

/-- **C1** (codec round-trip): for every JSON value `v`, encoding `v` with
`LanguageServerCodec::encode` into an empty buffer and then calling `decode`
on that buffer yields `Ok(Some v)`, leaves the codec in its initial state, and
fully consumes the buffer.  (The hypothesis is the `usize` bound on the
serialized length, below which `map_res` accepts the `Content-Length`
value.) -/
theorem codec_roundtrip (v : Json) (h64 : (serVal v).length < 2 ^ 64) :
    LanguageServerCodec.decode ⟨0⟩ (LanguageServerCodec.encode v []) =
      (.ok (some v), ⟨0⟩, []) :=
  decode_encode v h64

theorem codec_roundtrip_witness :
    (serVal Json.null).length < 2 ^ 64 ∧
      LanguageServerCodec.decode ⟨0⟩ (LanguageServerCodec.encode Json.null []) =
        (.ok (some Json.null), ⟨0⟩, []) :=
  ⟨by simp [serVal], codec_roundtrip Json.null (by simp [serVal])⟩

/-- **C2** (codec garbage recovery): for any non-empty garbage prefix `g` that
does not contain the literal `Content-Length`, followed by a valid frame
`encode v []`, the first `decode` call returns exactly one `MissingHeader`
error while discarding precisely the garbage, and the immediately following
`decode` call on the remaining buffer returns the JSON value encoded in the
frame. -/
theorem codec_garbage_recovery (g : List Char) (v : Json) (hg : g ≠ [])
    (hcl : containsSeq clChars g = false) (h64 : (serVal v).length < 2 ^ 64) :
    LanguageServerCodec.decode ⟨0⟩ (g ++ LanguageServerCodec.encode v []) =
      (.error .MissingHeader, ⟨0⟩, LanguageServerCodec.encode v []) ∧
    LanguageServerCodec.decode ⟨0⟩ (LanguageServerCodec.encode v []) =
      (.ok (some v), ⟨0⟩, []) := by
  have hf : LanguageServerCodec.encode v [] =
      clChars ++ (':' :: ' ' :: (natChars (serVal v).length ++
        ('\r' :: '\n' :: ('\r' :: '\n' :: serVal v)))) := by
    simp [LanguageServerCodec.encode, frameHeader, List.append_assoc]
  have hf2 : clChars ++ (':' :: ' ' :: (natChars (serVal v).length ++
      ('\r' :: '\n' :: ('\r' :: '\n' :: serVal v)))) =
      frameHeader (serVal v).length ++ serVal v := by
    simp [frameHeader, List.append_assoc]
  constructor
  · have hnp := cl_not_prefix_garbage g
      (':' :: ' ' :: (natChars (serVal v).length ++
        ('\r' :: '\n' :: ('\r' :: '\n' :: serVal v)))) hg
      (not_prefix_of_not_contains clChars g hg hcl)
    have herr := parseMessage_garbage_error g
      (':' :: ' ' :: (natChars (serVal v).length ++
        ('\r' :: '\n' :: ('\r' :: '\n' :: serVal v)))) hnp
    have hok : ∃ r m, parseMessage (clChars ++ (':' :: ' ' :: (natChars (serVal v).length ++
        ('\r' :: '\n' :: ('\r' :: '\n' :: serVal v))))) = .ok (r, m) :=
      ⟨[], serVal v, by rw [hf2]; exact parseMessage_frame (serVal v) h64⟩
    have hscan := recoveryScan_garbage .Tag g
      (':' :: ' ' :: (natChars (serVal v).length ++
        ('\r' :: '\n' :: ('\r' :: '\n' :: serVal v)))) hcl hok
    rw [hf]
    unfold LanguageServerCodec.decode
    rw [if_neg (by simp)]
    rw [herr]
    show (Except.error (recoveryScan ErrKind.Tag _).1, (⟨0⟩ : LanguageServerCodec),
      (recoveryScan ErrKind.Tag _).2) = _
    rw [hscan]
    rfl
  · exact decode_encode v h64

theorem codec_garbage_recovery_witness :
    (['x', 'y'] : List Char) ≠ [] ∧ containsSeq clChars ['x', 'y'] = false ∧
      (serVal Json.null).length < 2 ^ 64 ∧
      (LanguageServerCodec.decode ⟨0⟩
          (['x', 'y'] ++ LanguageServerCodec.encode Json.null []) =
        (.error .MissingHeader, ⟨0⟩, LanguageServerCodec.encode Json.null []) ∧
      LanguageServerCodec.decode ⟨0⟩ (LanguageServerCodec.encode Json.null []) =
        (.ok (some Json.null), ⟨0⟩, [])) :=
  ⟨by decide, by decide, by simp [serVal],
    codec_garbage_recovery ['x', 'y'] Json.null (by decide) (by decide) (by simp [serVal])⟩

end Lspower
